import Mathlib

/-!
Verification development for the NEON table-stacking engine
(neonutilities: unzip_and_stack.py and read_table_neon.py).

The Python source is shallowly embedded below.  File names and cell values
are Lean `String`s, processed through their underlying `List Char`; the
regular-expression searches of the source are embedded as explicit pattern
scanners over character lists.  Tabular buffers (pandas / pyarrow tables)
are embedded as a `PTable` of named string columns.  External library
behaviour that the source merely invokes (pyarrow CSV ingestion, pandas
`astype`, `pd.to_datetime`, resource CSV files shipped with the package,
network metadata fetches) is abstracted into explicit oracle parameters;
every piece of control flow, string processing and table manipulation that
the repository itself implements is embedded from the source.
-/

namespace NeonStack

/-! ### Generic list and character-string utilities -/

/-- Lexicographic strict comparison of character lists by code point,
matching Python string comparison. -/
def clLt : List Char → List Char → Bool
  | [], [] => false
  | [], _ :: _ => true
  | _ :: _, [] => false
  | a :: s, b :: t => if a = b then clLt s t else decide (a < b)

/-- Lexicographic non-strict comparison of character lists. -/
def clLe (a b : List Char) : Bool := clLt a b || decide (a = b)

theorem clLt_irrefl (a : List Char) : clLt a a = false := by
  induction a with
  | nil => rfl
  | cons c t ih => simp [clLt, ih]

theorem clLt_trichotomy (a b : List Char) :
    clLt a b = true ∨ a = b ∨ clLt b a = true := by
  induction a generalizing b with
  | nil => cases b with
    | nil => exact Or.inr (Or.inl rfl)
    | cons c t => exact Or.inl rfl
  | cons c s ih =>
    cases b with
    | nil => exact Or.inr (Or.inr rfl)
    | cons d t =>
      by_cases hcd : c = d
      · subst hcd
        rcases ih t with h | h | h
        · exact Or.inl (by simp [clLt, h])
        · exact Or.inr (Or.inl (by rw [h]))
        · exact Or.inr (Or.inr (by simp [clLt, h]))
      · rcases lt_trichotomy c d with h | h | h
        · exact Or.inl (by simp [clLt, hcd, h])
        · exact absurd h hcd
        · refine Or.inr (Or.inr ?_)
          have hdc : ¬ d = c := fun he => hcd he.symm
          simp [clLt, hdc, h]

theorem clLt_trans {a b c : List Char} :
    clLt a b = true → clLt b c = true → clLt a c = true := by
  induction a generalizing b c with
  | nil =>
    intro h1 h2
    cases b with
    | nil => simp [clLt] at h1
    | cons d t =>
      cases c with
      | nil => simp [clLt] at h2
      | cons e u => rfl
  | cons x s ih =>
    intro h1 h2
    cases b with
    | nil => simp [clLt] at h1
    | cons y t =>
      cases c with
      | nil => simp [clLt] at h2
      | cons z u =>
        by_cases hxy : x = y
        · subst hxy
          by_cases hyz : x = z
          · subst hyz
            simp only [clLt, if_pos rfl] at h1 h2 ⊢
            exact ih h1 h2
          · simp only [clLt, if_pos rfl] at h1
            simpa [clLt, hyz] using h2
        · by_cases hyz : y = z
          · subst hyz
            simpa [clLt, hxy] using h1
          · by_cases hxz : x = z
            · subst hxz
              simp only [clLt, if_neg hxy] at h1
              simp only [clLt, if_neg (fun h => hyz h : ¬ y = x)] at h2
              simp only [decide_eq_true_eq] at h1 h2
              exact absurd (lt_trans h1 h2) (lt_irrefl _)
            · simp only [clLt, if_neg hxy] at h1
              simp only [clLt, if_neg hyz] at h2
              simp only [clLt, if_neg hxz, decide_eq_true_eq] at h1 h2 ⊢
              exact lt_trans h1 h2

theorem clLt_asymm {a b : List Char} (h : clLt a b = true) : clLt b a = false := by
  by_contra hc
  have hba : clLt b a = true := by
    cases hcl : clLt b a with
    | false => exact absurd hcl hc
    | true => rfl
  have := clLt_trans h hba
  rw [clLt_irrefl] at this
  exact Bool.false_ne_true this

theorem clLe_total (a b : List Char) : clLe a b = true ∨ clLe b a = true := by
  rcases clLt_trichotomy a b with h | h | h
  · exact Or.inl (by simp [clLe, h])
  · exact Or.inl (by simp [clLe, h])
  · exact Or.inr (by simp [clLe, h])

theorem clLe_trans {a b c : List Char} :
    clLe a b = true → clLe b c = true → clLe a c = true := by
  intro h1 h2
  simp only [clLe, Bool.or_eq_true, decide_eq_true_eq] at h1 h2 ⊢
  rcases h1 with h1 | h1
  · rcases h2 with h2 | h2
    · exact Or.inl (clLt_trans h1 h2)
    · subst h2; exact Or.inl h1
  · subst h1
    exact h2

theorem clLe_antisymm {a b : List Char} :
    clLe a b = true → clLe b a = true → a = b := by
  intro h1 h2
  simp only [clLe, Bool.or_eq_true, decide_eq_true_eq] at h1 h2
  rcases h1 with h1 | h1
  · rcases h2 with h2 | h2
    · exact absurd (clLt_asymm h1) (by simp [h2])
    · exact h2.symm
  · exact h1

/-- Strict lexicographic comparison of Lean strings, via their characters. -/
def slexLt (a b : String) : Bool := clLt a.data b.data

/-- Accumulator loop of `uniqueFirst`: keep each element not seen before. -/
def ufGo (seen : List String) : List String → List String
  | [] => []
  | a :: l => if a ∈ seen then ufGo seen l else a :: ufGo (a :: seen) l

/-- Deduplication keeping the first occurrence of each element.  Used to
model the order-collapsing `list(set(...))` idiom of the Python source
(CPython set order is implementation defined; first-occurrence order is the
deterministic stand-in used throughout this embedding). -/
def uniqueFirst (l : List String) : List String := ufGo [] l

theorem mem_ufGo {x : String} :
    ∀ {seen l : List String}, x ∈ ufGo seen l → x ∈ l := by
  intro seen l
  induction l generalizing seen with
  | nil => intro h; simp [ufGo] at h
  | cons a l ih =>
    intro h
    rw [ufGo] at h
    by_cases ha : a ∈ seen
    · rw [if_pos ha] at h
      exact List.mem_cons_of_mem _ (ih h)
    · rw [if_neg ha] at h
      rcases List.mem_cons.mp h with rfl | h
      · exact List.mem_cons_self _ _
      · exact List.mem_cons_of_mem _ (ih h)

theorem mem_uniqueFirst {x : String} {l : List String} (h : x ∈ uniqueFirst l) : x ∈ l :=
  mem_ufGo h

theorem ufGo_sub {x : String} :
    ∀ {seen l : List String}, x ∈ l → x ∉ seen → x ∈ ufGo seen l := by
  intro seen l
  induction l generalizing seen with
  | nil => intro h; simp at h
  | cons a l ih =>
    intro h hs
    rw [ufGo]
    by_cases ha : a ∈ seen
    · rw [if_pos ha]
      rcases List.mem_cons.mp h with rfl | h
      · exact absurd ha hs
      · exact ih h hs
    · rw [if_neg ha]
      rcases List.mem_cons.mp h with rfl | h
      · exact List.mem_cons_self _ _
      · by_cases hxa : x = a
        · exact hxa ▸ List.mem_cons_self _ _
        · refine List.mem_cons_of_mem _ (ih h ?_)
          intro hc
          rcases List.mem_cons.mp hc with h' | h'
          · exact hxa h'
          · exact hs h'

theorem uniqueFirst_sub {l : List String} {x : String} (h : x ∈ l) : x ∈ uniqueFirst l :=
  ufGo_sub h (by simp)

theorem nodup_ufGo :
    ∀ (seen l : List String), (ufGo seen l).Nodup ∧ ∀ x ∈ ufGo seen l, x ∉ seen := by
  intro seen l
  induction l generalizing seen with
  | nil => exact ⟨List.nodup_nil, by simp [ufGo]⟩
  | cons a l ih =>
    rw [ufGo]
    by_cases ha : a ∈ seen
    · rw [if_pos ha]; exact ih seen
    · rw [if_neg ha]
      rcases ih (a :: seen) with ⟨hnd, hnot⟩
      refine ⟨List.nodup_cons.mpr ⟨fun hc => ?_, hnd⟩, ?_⟩
      · exact hnot a hc (List.mem_cons_self _ _)
      · intro x hx
        rcases List.mem_cons.mp hx with rfl | hx
        · exact ha
        · exact fun hc => hnot x hx (List.mem_cons_of_mem _ hc)

theorem nodup_uniqueFirst (l : List String) : (uniqueFirst l).Nodup :=
  (nodup_ufGo [] l).1

theorem ufGo_eq_self :
    ∀ {seen l : List String}, l.Nodup → (∀ x ∈ l, x ∉ seen) → ufGo seen l = l := by
  intro seen l
  induction l generalizing seen with
  | nil => intro _ _; rfl
  | cons a l ih =>
    intro hnd hdis
    rcases List.nodup_cons.mp hnd with ⟨hna, hnd'⟩
    rw [ufGo, if_neg (hdis a (List.mem_cons_self _ _))]
    refine congrArg (a :: ·) (ih hnd' ?_)
    intro x hx hc
    rcases List.mem_cons.mp hc with rfl | hc
    · exact hna hx
    · exact hdis x (List.mem_cons_of_mem _ hx) hc

theorem uniqueFirst_eq_self {l : List String} (h : l.Nodup) : uniqueFirst l = l :=
  ufGo_eq_self h (by simp)

instance {ε α : Type _} [DecidableEq ε] [DecidableEq α] : DecidableEq (Except ε α) := fun a b =>
  match a, b with
  | .error e, .error f =>
    decidable_of_iff (e = f) ⟨by rintro rfl; rfl, by intro h; cases h; rfl⟩
  | .error _, .ok _ => isFalse (by intro h; cases h)
  | .ok _, .error _ => isFalse (by intro h; cases h)
  | .ok x, .ok y =>
    decidable_of_iff (x = y) ⟨by rintro rfl; rfl, by intro h; cases h; rfl⟩

/-- Stable insertion of an element into a list: it is placed before the first
element that is not strictly smaller, so equal keys preserve their original
relative order. -/
def insertBy (le : α → α → Bool) (a : α) : List α → List α
  | [] => [a]
  | b :: l => if le a b then a :: b :: l else b :: insertBy le a l

/-- Stable sort by a boolean comparator; the idealization of a stable
pandas `sort_values` used by this embedding. -/
def sortBy (le : α → α → Bool) : List α → List α
  | [] => []
  | a :: l => insertBy le a (sortBy le l)

theorem perm_insertBy (le : α → α → Bool) (a : α) :
    ∀ (l : List α), (insertBy le a l).Perm (a :: l)
  | [] => List.Perm.refl _
  | b :: l => by
    rw [insertBy]
    by_cases h : le a b = true
    · simp [h]
    · simp only [h]
      rw [if_neg (by simp [h])]
      exact ((perm_insertBy le a l).cons b).trans (List.Perm.swap a b l)

theorem perm_sortBy (le : α → α → Bool) : ∀ (l : List α), (sortBy le l).Perm l
  | [] => List.Perm.refl _
  | a :: l => (perm_insertBy le a (sortBy le l)).trans ((perm_sortBy le l).cons a)

theorem pairwise_insertBy (le : α → α → Bool)
    (htot : ∀ a b, le a b = true ∨ le b a = true)
    (htrans : ∀ {a b c}, le a b = true → le b c = true → le a c = true)
    (a : α) : ∀ (l : List α), l.Pairwise (fun x y => le x y = true) →
      (insertBy le a l).Pairwise (fun x y => le x y = true)
  | [], _ => by simp [insertBy]
  | b :: l, h => by
    rw [insertBy]
    rcases List.pairwise_cons.mp h with ⟨hb, hl⟩
    by_cases hab : le a b = true
    · rw [if_pos hab]
      refine List.pairwise_cons.mpr ⟨?_, h⟩
      intro x hx
      rcases List.mem_cons.mp hx with rfl | hx
      · exact hab
      · exact htrans hab (hb x hx)
    · rw [if_neg hab]
      have hba : le b a = true := (htot a b).resolve_left hab
      refine List.pairwise_cons.mpr ⟨?_, pairwise_insertBy le htot htrans a l hl⟩
      intro x hx
      have := (perm_insertBy le a l).mem_iff.mp hx
      rcases List.mem_cons.mp this with rfl | hx
      · exact hba
      · exact hb x hx

theorem pairwise_sortBy (le : α → α → Bool)
    (htot : ∀ a b, le a b = true ∨ le b a = true)
    (htrans : ∀ {a b c}, le a b = true → le b c = true → le a c = true) :
    ∀ (l : List α), (sortBy le l).Pairwise (fun x y => le x y = true)
  | [] => List.Pairwise.nil
  | a :: l => pairwise_insertBy le htot htrans a _ (pairwise_sortBy le htot htrans l)

/-- Sorted lists that are permutations of each other and whose elements have
pairwise distinct keys are equal.  The comparator need only be antisymmetric
up to key equality. -/
theorem sorted_perm_eq {κ : Type} (le : α → α → Bool) (key : α → κ)
    (hanti : ∀ a b, le a b = true → le b a = true → key a = key b) :
    ∀ (l₁ l₂ : List α), l₁.Perm l₂ →
      l₁.Pairwise (fun x y => le x y = true) →
      l₂.Pairwise (fun x y => le x y = true) →
      (l₁.map key).Nodup → l₁ = l₂
  | [], l₂, hp, _, _, _ => (List.Perm.nil_eq hp).symm ▸ rfl
  | a :: t₁, [], hp, _, _, _ => absurd hp.symm (by simp)
  | a :: t₁, b :: t₂, hp, hs₁, hs₂, hnd => by
    rcases List.pairwise_cons.mp hs₁ with ⟨ha1, ht₁⟩
    rcases List.pairwise_cons.mp hs₂ with ⟨hb2, ht₂⟩
    have hab : a = b := by
      by_cases heq : a = b
      · exact heq
      · have hain : a ∈ b :: t₂ := hp.mem_iff.mp (List.mem_cons_self _ _)
        have hbin : b ∈ a :: t₁ := hp.mem_iff.mpr (List.mem_cons_self _ _)
        have hba : le b a = true := hb2 a (by
          rcases List.mem_cons.mp hain with h | h
          · exact absurd h heq
          · exact h)
        have hab' : le a b = true := ha1 b (by
          rcases List.mem_cons.mp hbin with h | h
          · exact absurd h.symm heq
          · exact h)
        have hkey : key a = key b := hanti a b hab' hba
        have hbt : b ∈ t₁ := by
          rcases List.mem_cons.mp hbin with h | h
          · exact absurd h.symm heq
          · exact h
        have := List.inj_on_of_nodup_map hnd (List.mem_cons_self a t₁)
          (List.mem_cons_of_mem a hbt) hkey
        exact absurd this heq
    subst hab
    have ht : t₁.Perm t₂ := hp.cons_inv
    have : t₁ = t₂ := sorted_perm_eq le key hanti t₁ t₂ ht ht₁ ht₂
      (List.nodup_cons.mp (by simpa using hnd)).2
    rw [this]

/-- Selection of the first element realizing the maximum of a string key,
matching the semantics of pandas `idxmax` (ties keep the earliest row). -/
def pickMax (g : α → String) : List α → Option α
  | [] => none
  | a :: l => match pickMax g l with
    | none => some a
    | some m => if slexLt (g a) (g m) then some m else some a

theorem pickMax_mem {g : α → String} :
    ∀ {l : List α} {m : α}, pickMax g l = some m → m ∈ l
  | [], m, h => by simp [pickMax] at h
  | a :: l, m, h => by
    rw [pickMax] at h
    cases hl : pickMax g l with
    | none => rw [hl] at h; exact List.mem_cons.mpr (Or.inl (Option.some.inj h).symm)
    | some m' =>
      rw [hl] at h
      dsimp only at h
      by_cases hlt : slexLt (g a) (g m') = true
      · rw [if_pos hlt] at h
        exact List.mem_cons_of_mem _ (pickMax_mem (hl.trans (congrArg some (Option.some.inj h))))
      · rw [if_neg hlt] at h
        exact List.mem_cons.mpr (Or.inl (Option.some.inj h).symm)

theorem pickMax_isSome {g : α → String} {l : List α} (h : l ≠ []) :
    ∃ m, pickMax g l = some m := by
  cases l with
  | nil => exact absurd rfl h
  | cons a l =>
    rw [pickMax]
    cases pickMax g l with
    | none => exact ⟨a, rfl⟩
    | some m' =>
      by_cases hlt : slexLt (g a) (g m') = true
      · exact ⟨m', by dsimp only; rw [if_pos hlt]⟩
      · exact ⟨a, by dsimp only; rw [if_neg hlt]⟩

/-- Group-by-key maximum selection: for each key value (first-occurrence
order) keep the first row attaining the maximal `g` value in that group. -/
def dedupKeyMax (f : α → String) (g : α → String) (l : List α) : List α :=
  (uniqueFirst (l.map f)).filterMap (fun k => pickMax g (l.filter (fun r => f r = k)))

/-- Association-list lookup (first match), modelling Python dict access. -/
def alookup (k : String) : List (String × β) → Option β
  | [] => none
  | (k', v) :: l => if k' = k then some v else alookup k l

/-- Association-list update-or-append, modelling Python dict assignment. -/
def aupdate (k : String) (v : β) : List (String × β) → List (String × β)
  | [] => [(k, v)]
  | (k', v') :: l => if k' = k then (k, v) :: l else (k', v') :: aupdate k v l

theorem alookup_aupdate_self (k : String) (v : β) :
    ∀ (l : List (String × β)), alookup k (aupdate k v l) = some v
  | [] => by simp [aupdate, alookup]
  | (k', v') :: l => by
    rw [aupdate]
    by_cases h : k' = k
    · rw [if_pos h, alookup, if_pos rfl]
    · rw [if_neg h, alookup, if_neg h]
      exact alookup_aupdate_self k v l

theorem alookup_aupdate_ne {k k' : String} (hne : k' ≠ k) (v : β) :
    ∀ (l : List (String × β)), alookup k (aupdate k' v l) = alookup k l
  | [] => by simp [aupdate, alookup, hne]
  | (k'', v'') :: l => by
    rw [aupdate]
    by_cases h : k'' = k'
    · rw [if_pos h, alookup, if_neg hne, alookup, if_neg (h ▸ hne)]
    · rw [if_neg h, alookup, alookup]
      by_cases h2 : k'' = k
      · rw [if_pos h2, if_pos h2]
      · rw [if_neg h2, if_neg h2]
        exact alookup_aupdate_ne hne v l

/-! ### Character-pattern scanners

Each fixed regular expression of the source is embedded as a predicate
`...At` testing a match anchored at the head of a character list, scanned
over every suffix (the semantics of `re.search`). -/

/-- Test whether the second list starts with the first. -/
def startsWithSeg : List Char → List Char → Bool
  | [], _ => true
  | _ :: _, [] => false
  | a :: s, b :: t => a = b && startsWithSeg s t

/-- Substring test (Python `pat in s` on the underlying characters). -/
def containsSeg (pat : List Char) : List Char → Bool
  | [] => startsWithSeg pat []
  | l@(_ :: t) => startsWithSeg pat l || containsSeg pat t

/-- Substring test on strings. -/
def shas (pat s : String) : Bool := containsSeg pat.data s.data

/-- Collect `(drop i).take n` for every position `i` at which the anchored
predicate `p` matches; first element is the leftmost match. -/
def scanAll (p : List Char → Bool) (n : Nat) : List Char → List (List Char)
  | [] => if p [] then [[]] else []
  | l@(_ :: t) => (if p l then [l.take n] else []) ++ scanAll p n t

/-- Leftmost match of an anchored predicate, as `re.search`. -/
def scanFirst (p : List Char → Bool) (n : Nat) (l : List Char) : Option (List Char) :=
  (scanAll p n l).head?

/-- Position of the leftmost match of an anchored predicate. -/
def scanPos (p : List Char → Bool) : List Char → Option Nat
  | [] => if p [] then some 0 else none
  | l@(_ :: t) => if p l then some 0 else (scanPos p t).map (· + 1)

/-- Match for `20\d{2}\d{2}\d{2}` anchored at the head (the 8-digit
publication date of `get_recent_publication`). -/
def date8At : List Char → Bool
  | c1 :: c2 :: c3 :: c4 :: c5 :: c6 :: c7 :: c8 :: _ =>
    c1 = '2' && c2 = '0' && c3.isDigit && c4.isDigit && c5.isDigit &&
      c6.isDigit && c7.isDigit && c8.isDigit
  | _ => false

/-- Match for `20[0-9]{6}T[0-9]{6}Z` anchored at the head (the full
publication timestamp). -/
def tsAt : List Char → Bool
  | c1 :: c2 :: c3 :: c4 :: c5 :: c6 :: c7 :: c8 :: t :: d1 :: d2 :: d3 :: d4 :: d5 :: d6 :: z :: _ =>
    c1 = '2' && c2 = '0' && c3.isDigit && c4.isDigit && c5.isDigit &&
      c6.isDigit && c7.isDigit && c8.isDigit && t = 'T' && d1.isDigit &&
      d2.isDigit && d3.isDigit && d4.isDigit && d5.isDigit && d6.isDigit && z = 'Z'
  | _ => false

/-- Match for `[0-9]{4}-[0-9]{2}` anchored at the head (the year-month token
of `table_type_formats`). -/
def ymAt : List Char → Bool
  | c1 :: c2 :: c3 :: c4 :: d :: c5 :: c6 :: _ =>
    c1.isDigit && c2.isDigit && c3.isDigit && c4.isDigit && d = '-' &&
      c5.isDigit && c6.isDigit
  | _ => false

/-- Match for `D[0-2]{1}[0-9]{1}` anchored at the head (the domain code). -/
def domAt : List Char → Bool
  | d :: c1 :: c2 :: _ =>
    d = 'D' && (c1 = '0' || c1 = '1' || c1 = '2') && c2.isDigit
  | _ => false

/-- Character test for an ASCII capital letter. -/
def isUpperAZ (c : Char) : Bool := decide ('A' ≤ c) && decide (c ≤ 'Z')

/-- Match for `[.][A-Z]{4}[.]` anchored at the head (the site token used by
`find_sites`). -/
def siteTokAt : List Char → Bool
  | d1 :: c1 :: c2 :: c3 :: c4 :: d2 :: _ =>
    d1 = '.' && isUpperAZ c1 && isUpperAZ c2 && isUpperAZ c3 && isUpperAZ c4 && d2 = '.'
  | _ => false

/-- Match for `D[0-9]{2}[.][A-Z]{4}[.]` anchored at the head (the
domain-plus-site segment used for the provenance `siteID`). -/
def domSiteAt : List Char → Bool
  | d :: c1 :: c2 :: p1 :: s1 :: s2 :: s3 :: s4 :: p2 :: _ =>
    d = 'D' && c1.isDigit && c2.isDigit && p1 = '.' && isUpperAZ s1 &&
      isUpperAZ s2 && isUpperAZ s3 && isUpperAZ s4 && p2 = '.'
  | _ => false

/-- Match for `[.][0-9]{3}[.][0-9]{3}[.][0-9]{3}[.][0-9]{3}[.]` anchored at
the head (the sensor-position segment of instrumented-product file names). -/
def locAt : List Char → Bool
  | p0 :: a1 :: a2 :: a3 :: p1 :: b1 :: b2 :: b3 :: p2 :: c1 :: c2 :: c3 :: p3 :: d1 :: d2 :: d3 :: p4 :: _ =>
    p0 = '.' && a1.isDigit && a2.isDigit && a3.isDigit && p1 = '.' &&
      b1.isDigit && b2.isDigit && b3.isDigit && p2 = '.' && c1.isDigit &&
      c2.isDigit && c3.isDigit && p3 = '.' && d1.isDigit && d2.isDigit &&
      d3.isDigit && p4 = '.'
  | _ => false

/-- Match for the guard regex `variables.20` where `.` is the regex
wildcard: the literal `variables`, any one character, then `20`. -/
def varGuardAt : List Char → Bool
  | 'v' :: 'a' :: 'r' :: 'i' :: 'a' :: 'b' :: 'l' :: 'e' :: 's' :: _ :: '2' :: '0' :: _ => true
  | _ => false

/-- Match for the guard regex `readme.20` with the wildcard dot. -/
def rmeGuardAt : List Char → Bool
  | 'r' :: 'e' :: 'a' :: 'd' :: 'm' :: 'e' :: _ :: '2' :: '0' :: _ => true
  | _ => false

/-- Anchored match for the release-segment regex
`20[0-9]{6}T[0-9]{6}Z\..*\/`: a full timestamp, a literal dot, then any
characters up to a later slash. -/
def relAt (l : List Char) : Bool :=
  tsAt l && ((l.drop 16).head? = some '.') && (l.drop 16).contains '/'

/-- Index of the last occurrence of a character, if any. -/
def lastIdxOf (c : Char) : List Char → Option Nat
  | [] => none
  | a :: t => match lastIdxOf c t with
    | some i => some (i + 1)
    | none => if a = c then some 0 else none

/-- Release-tag extraction from a full file path, embedding the source
sequence `pubrelr.search(p).group(0)` followed by stripping everything up
to the last dot and removing slashes; `none` models the uncaught
`AttributeError` when the pattern does not match. -/
def extractRelease (l : List Char) : Option (List Char) :=
  match scanPos relAt l with
  | none => none
  | some i =>
    let rest := l.drop (i + 16)
    match lastIdxOf '/' rest with
    | none => none
    | some p =>
      let g := (l.drop i).take (16 + p + 1)
      match lastIdxOf '.' g with
      | none => none
      | some q => some ((g.drop (q + 1)).filter (fun c => ¬ c = '/'))

/-- Part of a path after the last slash (`os.path.basename`). -/
def basenameC : List Char → List Char
  | [] => []
  | c :: t => if c = '/' || t.contains '/' then basenameC t else c :: t

/-- Python `split(".")` on the underlying characters. -/
def splitD : List Char → List (List Char)
  | [] => [[]]
  | c :: t =>
    if c = '.' then [] :: splitD t
    else match splitD t with
      | [] => [[c]]
      | s :: rest => (c :: s) :: rest

/-- String-valued components of a dot-split file name. -/
def splitDotS (s : String) : List String := (splitD s.data).map String.mk

/-- Basename of a path string. -/
def basenameS (s : String) : String := String.mk (basenameC s.data)

/-! ### Embedding of the stacking-engine source -/

/-- Fuel-driven loop of `replaceSeg`; the fuel is an upper bound on the
number of characters consumed, so `replaceSeg` supplies the input length. -/
def rsGo (pat rep : List Char) : List Char → Nat → List Char
  | l, 0 => l
  | [], _ + 1 => []
  | c :: t, fuel + 1 =>
    if pat ≠ [] ∧ startsWithSeg pat (c :: t) = true then
      rep ++ rsGo pat rep ((c :: t).drop pat.length) fuel
    else
      c :: rsGo pat rep t fuel

/-- Replace every non-overlapping occurrence of `pat` by `rep`, scanning
left to right (Python `str.replace`). -/
def replaceSeg (pat rep l : List Char) : List Char :=
  rsGo pat rep l l.length

/-- Exceptions of the stacking job.  Each constructor records one uncaught
Python exception site (or an explicit `raise`) of the source, tagged with
the table being processed where applicable. -/
inductive JobErr
  | noTables
  | tablesIndex (table : String)
  | conflictingSchedules (table : String)
  | varsKey
  | metaRecency
  | labName (table : String)
  | siteName (table : String)
  | recency (table : String)
  | fileCol (table : String)
  | pubStamp (table : String)
  | releaseTag (table : String)
  | domainCode (table : String)
  | siteCode (table : String)
  | srfCols (table : String)
  | spCols (table : String)
  | noData
deriving DecidableEq, Repr

/-- Embedding of `get_recent_publication` (unzip_and_stack.py lines
137-165).  The source extracts the first `20\d{2}\d{2}\d{2}` match — an
8-digit date, not the full timestamp — from each basename, takes the
maximum date string (`max` keeps the first maximal element), and returns
every path whose basename contains that maximal date as a substring.
`none` embeds the uncaught `ValueError` raised by `max()` on an empty
sequence when no path has a parseable date. -/
def get_recent_publication (filepaths : List String) : Option (List String) :=
  let pub_dates := filepaths.filterMap (fun f => scanFirst date8At 8 (basenameC f.data))
  match pub_dates with
  | [] => none
  | d :: ds =>
    let recent_pub_date := ds.foldl (fun a b => if clLt a b then b else a) d
    some (filepaths.filter (fun f => containsSeg recent_pub_date (basenameC f.data)))

/-- Year-month search of `table_type_formats`: `re.search("[0-9]{4}-[0-9]{2}", f)`. -/
def hasYM (s : String) : Bool := (scanPos ymAt s.data).isSome

/-- Embedding of `table_type_formats` (unzip_and_stack.py lines 227-253):
the argument is a file name already split on dots. -/
def table_type_formats (flname : List String) : String :=
  if flname.length ≤ 6 then "lab"
  else if flname.filter (fun f => hasYM f) ≠ [] then "site-date"
  else "site-all"

/-- Table-token extraction inside `find_table_types`: components from index
2 onward, skipping the two reserved names and tokens without an underscore,
with `_pub` occurrences removed. -/
def tableTokens (parts : List String) : List String :=
  (parts.drop 2).filterMap (fun s =>
    if s = "sensor_positions" ∨ s = "science_review_flags" then none
    else if containsSeg "_".data s.data then
      some (String.mk (replaceSeg "_pub".data [] s.data))
    else none)

/-- Match test of the per-table regex `^t$|^t_pub$` applied to each
component of a split file name. -/
def matchesTable (t : String) (parts : List String) : Bool :=
  parts.any (fun tr => tr = t || tr = t ++ "_pub")

/-- Per-table classification loop of `find_table_types`: for each candidate
name collect the shape-derived types of all member files; a single type is
recorded, an empty match list embeds the `IndexError` at `ttk[0]`, and two
or more distinct types embed the `ValueError` naming the table
("In files to be stacked, table ... has been published under conflicting
schedules ..."). -/
def classifyTables (splitnames : List (List String)) : List String → Except JobErr (List (String × String))
  | [] => .ok []
  | t :: rest =>
    match uniqueFirst (((splitnames.filter (fun parts => matchesTable t parts)).map table_type_formats)) with
    | [] => .error (.tablesIndex t)
    | [ty] => (classifyTables splitnames rest).map (fun l => (t, ty) :: l)
    | _ :: _ :: _ => .error (.conflictingSchedules t)

/-- Split basenames of a file list, as computed inside `find_table_types`. -/
def splitNamesOf (datatables : List String) : List (List String) :=
  (datatables.map basenameS).map splitDotS

/-- Concatenated table tokens of all files (the `td` list of
`find_table_types`). -/
def tableCandidates (datatables : List String) : List String :=
  (splitNamesOf datatables).foldr (fun parts acc => tableTokens parts ++ acc) []

/-- Embedding of `find_table_types` (unzip_and_stack.py lines 256-306).
An empty token list makes the source return `None`, which the caller then
dereferences — embedded as the `noTables` error. -/
def find_table_types (datatables : List String) : Except JobErr (List (String × String)) :=
  let splitnames := splitNamesOf datatables
  let td := tableCandidates datatables
  if td = [] then .error .noTables
  else classifyTables splitnames (uniqueFirst td)

/-- Embedding of `find_lab_names`: the second dot-component of each
basename, deduplicated; `none` embeds the `IndexError` on a name without a
dot. -/
def find_lab_names (flpths : List String) : Option (List String) :=
  let splitnames := flpths.map (fun f => splitDotS (basenameS f))
  match splitnames.mapM (fun parts => parts.get? 1) with
  | none => none
  | some labnames => some (uniqueFirst labnames)

/-- Embedding of `find_sites`: the first `[.][A-Z]{4}[.]` match of each
basename, deduplicated, with the dots removed; `none` embeds the
`AttributeError` when some basename has no site token. -/
def find_sites (flpths : List String) : Option (List String) :=
  match (flpths.map basenameS).mapM (fun f => scanFirst siteTokAt 6 f.data) with
  | none => none
  | some toks =>
    some ((uniqueFirst (toks.map String.mk)).map
      (fun s => String.mk (s.data.filter (fun c => ¬ c = '.'))))

/-! #### Tabular buffers

A `PTable` embeds a pandas/pyarrow table as named string-valued columns in
row-major order.  Missing values read from CSV (`NaN`) are embedded as the
empty string. -/

structure PTable where
  cols : List String
  rows : List (List String)
deriving DecidableEq, Repr

/-- Index of a column name (first match). -/
def idxOfCol (c : String) : List String → Option Nat
  | [] => none
  | a :: l => if a = c then some 0 else (idxOfCol c l).map (· + 1)

/-- Column values at an index. -/
def getColAt (t : PTable) (i : Nat) : List String := t.rows.map (fun r => r.getD i "")

/-- Replacement of the column at an index. -/
def setColAt (t : PTable) (i : Nat) (vs : List String) : PTable :=
  { t with rows := t.rows.zipWith (fun r v => r.set i v) vs }

/-- Append a column at the end. -/
def addColEnd (t : PTable) (c : String) (vs : List String) : PTable :=
  { cols := t.cols ++ [c], rows := t.rows.zipWith (fun r v => r ++ [v]) vs }

/-- Insertion into a list at a position. -/
def insAt (i : Nat) (a : α) (l : List α) : List α := l.take i ++ a :: l.drop i

/-- Insert a column at a position (pandas `insert`). -/
def insertColAt (t : PTable) (i : Nat) (c : String) (vs : List String) : PTable :=
  { cols := insAt i c t.cols, rows := (t.rows.zip vs).map (fun rv => insAt i rv.2 rv.1) }

/-- Drop the column at an index. -/
def dropColAt (t : PTable) (i : Nat) : PTable :=
  { cols := t.cols.eraseIdx i, rows := t.rows.map (fun r => r.eraseIdx i) }

/-- Column values looked up by name. -/
def getColByName (t : PTable) (c : String) : Option (List String) :=
  (idxOfCol c t.cols).map (getColAt t)

/-- Embedding of `remove_srf_dups` (unzip_and_stack.py lines 359-384):
for each `srfID` (set order embedded as first-occurrence order) keep the
row whose `lastUpdateDateTime` is maximal, first occurrence on ties
(`idxmax`).  `none` embeds the `KeyError` when either column is absent. -/
def remove_srf_dups (srftab : PTable) : Option PTable :=
  match idxOfCol "srfID" srftab.cols, idxOfCol "lastUpdateDateTime" srftab.cols with
  | some si, some ui =>
    some { srftab with
      rows := dedupKeyMax (fun r => r.getD si "") (fun r => r.getD ui "") srftab.rows }
  | _, _ => none

/-- Legacy-to-current column-name pairs of `align_sp_cols`, in source
order. -/
def spOldCols : List (String × String) :=
  [("name", "sensorLocationID"),
   ("description", "sensorLocationDescription"),
   ("start", "positionStartDateTime"),
   ("end", "positionEndDateTime"),
   ("referenceName", "referenceLocationID"),
   ("referenceDescription", "referenceLocationIDDescription"),
   ("referenceStart", "referenceLocationIDStartDateTime"),
   ("referenceEnd", "referenceLocationIDEndDateTime"),
   ("referenceLatitude", "locationReferenceLatitude"),
   ("referenceLongitude", "locationReferenceLongitude"),
   ("referenceElevation", "locationReferenceElevation")]

/-- Embedding of `align_sp_cols` (unzip_and_stack.py lines 386-423):
an all-null legacy column is dropped, otherwise it fills nulls of the
current column and is then dropped; `none` embeds the `KeyError` when an
expected column is absent. -/
def align_sp_cols (sptab : PTable) : Option PTable :=
  spOldCols.foldlM (fun tab kv =>
    match idxOfCol kv.1 tab.cols with
    | none => none
    | some ki =>
      let old := getColAt tab ki
      if old.all (fun c => c = "") then some (dropColAt tab ki)
      else match idxOfCol kv.2 tab.cols with
        | none => none
        | some ni =>
          let filled := (getColAt tab ni).zipWith (fun nv ov => if nv = "" then ov else nv) old
          some (dropColAt (setColAt tab ni filled) ki)) sptab

/-- Date-column probing order of `sort_dat`. -/
def dateVarOf (pcols : List String) : Option String :=
  if "collectDate" ∈ pcols then some "collectDate"
  else if "endDate" ∈ pcols then some "endDate"
  else if "startDate" ∈ pcols then some "startDate"
  else if "date" ∈ pcols then some "date"
  else if "endDateTime" ∈ pcols then some "endDateTime"
  else if "startDateTime" ∈ pcols then some "startDateTime"
  else none

/-- Lexicographic row comparison over a list of column indices. -/
def rowsLe (idxs : List Nat) (r s : List String) : Bool :=
  match idxs with
  | [] => true
  | i :: rest =>
    let a := r.getD i ""
    let b := s.getD i ""
    if a = b then rowsLe rest r s else slexLt a b

/-- Embedding of `sort_dat` (unzip_and_stack.py lines 425-494).  The pandas
sort is idealized as a stable sort on string cells (the source uses the
default quicksort, which does not even guarantee stability); failed sorts
(`KeyError` caught by the bare excepts) leave the order as ingested. -/
def sort_dat (pdata : PTable) : PTable :=
  let pcols := pdata.cols
  let datevar := dateVarOf pcols
  if "horizontalPosition" ∈ pcols then
    match idxOfCol "siteID" pcols, idxOfCol "horizontalPosition" pcols,
        idxOfCol "verticalPosition" pcols with
    | some si, some hi, some vi =>
      match datevar.bind (fun dv => idxOfCol dv pcols) with
      | some di => { pdata with rows := sortBy (rowsLe [si, hi, vi, di]) pdata.rows }
      | none =>
        match datevar with
        | some _ => pdata
        | none => { pdata with rows := sortBy (rowsLe [si, hi, vi]) pdata.rows }
    | _, _, _ => pdata
  else
    match idxOfCol "siteID" pcols with
    | some si =>
      match datevar.bind (fun dv => idxOfCol dv pcols) with
      | some di => { pdata with rows := sortBy (rowsLe [si, di]) pdata.rows }
      | none =>
        match datevar with
        | some _ => pdata
        | none => { pdata with rows := sortBy (rowsLe [si]) pdata.rows }
    | none =>
      match datevar.bind (fun dv => idxOfCol dv pcols) with
      | some di => { pdata with rows := sortBy (rowsLe [di]) pdata.rows }
      | none => pdata

/-! #### Schema building (read_table_neon.py) -/

/-- Arrow column types produced by the schema builder. -/
inductive PaType
  | float64
  | int64
  | string
  | timestampUTC
  | date64
deriving DecidableEq, Repr

/-- Named column types of a table schema. -/
abbrev Schema := List (String × PaType)

/-- One row of a NEON variables file, restricted to the fields the stacking
engine reads. -/
structure FieldRow where
  table : String
  fieldName : String
  dataType : String
  pubFormat : String
  downloadPkg : String
deriving DecidableEq, Repr

/-- Type translation of one variables row: the sequential `if` reassignments
of `typ` inside `get_variables` (read_table_neon.py lines 12-59); the
conditions are mutually exclusive, so the sequence is an if-else cascade
starting from the `pa.string()` default. -/
def neonFieldType (dataType pubFormat : String) : PaType :=
  if dataType = "real" then .float64
  else if dataType = "integer" ∨ dataType = "unsigned integer" ∨ dataType = "signed integer" then .int64
  else if dataType = "string" ∨ dataType = "uri" then .string
  else if dataType = "dateTime" then
    if pubFormat = "yyyy-MM-dd\x27T\x27HH:mm:ss\x27Z\x27(floor)" ∨
        pubFormat = "yyyy-MM-dd\x27T\x27HH:mm:ss\x27Z\x27" ∨
        pubFormat = "yyyy-MM-dd\x27T\x27HH:mm:ss\x27Z\x27(round)" then .timestampUTC
    else if pubFormat = "yyyy-MM-dd(floor)" ∨ pubFormat = "yyyy-MM-dd" then .date64
    else if pubFormat = "yyyy(floor)" ∨ pubFormat = "yyyy(round)" then .int64
    else .string
  else .string

/-- Embedding of `get_variables` (read_table_neon.py lines 12-59): the
schema is grown one appended field at a time; `none` embeds the `NameError`
on an empty variables frame (`vschema` never assigned). -/
def get_variables (v : List FieldRow) : Option Schema :=
  v.foldl (fun acc r =>
    match acc with
    | none => some [(r.fieldName, neonFieldType r.dataType r.pubFormat)]
    | some s => some (s ++ [(r.fieldName, neonFieldType r.dataType r.pubFormat)])) none

/-- Embedding of `string_schema` (unzip_and_stack.py lines 168-195): every
field of the variables frame typed as string. -/
def string_schema (v : List FieldRow) : Option Schema :=
  v.foldl (fun acc r =>
    match acc with
    | none => some [(r.fieldName, PaType.string)]
    | some s => some (s ++ [(r.fieldName, PaType.string)])) none

/-- Pandas dtype translation of one dataType value inside
`get_variables_pandas`; `none` marks an unrecognized value, for which the
source leaves `typ` bound to the previous row. -/
def pandasType (dataType : String) : Option String :=
  if dataType = "real" then some "Float64"
  else if dataType = "integer" ∨ dataType = "unsigned integer" ∨ dataType = "signed integer" then some "Int64"
  else if dataType = "string" ∨ dataType = "uri" then some "string"
  else if dataType = "dateTime" then some "datetime64[ns, UTC]"
  else none

/-- Embedding of `get_variables_pandas` (read_table_neon.py lines 175-207),
including the carry-over of `typ` across rows with unrecognized dataType;
`none` embeds the `NameError` when the first row is unrecognized and `typ`
is read unbound. -/
def get_variables_pandas (v : List FieldRow) : Option (List (String × String)) :=
  (v.foldlM (fun (st : List (String × String) × Option String) (r : FieldRow) =>
    let typ := match pandasType r.dataType with
      | some ty => some ty
      | none => st.2
    match typ with
    | none => (none : Option (List (String × String) × Option String))
    | some ty => some (aupdate r.fieldName ty st.1, some ty))
    (([] : List (String × String)), (none : Option String))).map
    (fun (st : List (String × String) × Option String) => st.1)

/-- One column visit of `cast_table_neon`: numeric dtypes attempt the
oracle cast and keep the string column on failure; datetime dtypes other
than the `publicationDate` column are converted; anything else (including
a column absent from the dtype dict) is untouched. -/
def castStep (numCast : String → List String → Option (List String))
    (dateConv : List String → List String) (vdt : List (String × String))
    (names : List String) (ct : PTable) (i : Nat) : PTable :=
  match alookup (names.getD i "") vdt with
  | none => ct
  | some dt =>
    if dt = "Float64" ∨ dt = "Int64" then
      match numCast dt (getColAt ct i) with
      | some vals => setColAt ct i vals
      | none => ct
    else if dt = "datetime64[ns, UTC]" ∧ ¬ names.getD i "" = "publicationDate" then
      setColAt ct i (dateConv (getColAt ct i))
    else ct

/-- Embedding of `cast_table_neon` (read_table_neon.py lines 210-282).
The pandas numeric cast (blank-to-NaN replacement followed by `astype`) is
the oracle `numCast`, returning `none` when `astype` raises — the source
then leaves the column as string; `date_convert` is the oracle `dateConv`
(it never raises: its final fallback returns the input).  The isinstance
and column-presence checks of the source always pass for the structural
`FieldRow` representation; `none` embeds the `NameError` escaping from
`get_variables_pandas`.  Columns are visited in position order, carrying
the column name of each position. -/
def cast_table_neon (numCast : String → List String → Option (List String))
    (dateConv : List String → List String)
    (data_table : PTable) (var_table : List FieldRow) : Option PTable :=
  match get_variables_pandas var_table with
  | none => none
  | some vdt =>
    some ((List.range data_table.cols.length).foldl
      (castStep numCast dateConv vdt data_table.cols) data_table)

/-! #### The per-table assembly and the whole stacking job
(`stack_data_files_parallel`, unzip_and_stack.py lines 641-1035)

External behaviour that the source merely invokes is packaged as oracles:
`ingest` stands for one pyarrow `dataset(...).to_table(...)` call (`none`
embeds a raised exception; its `Bool` argument distinguishes the string
retry call from the first attempt), `numCast` for one pandas
blank-to-NaN-plus-`astype` column cast, `dateConv` for `date_convert`,
`readVars`/`readTab`/`readRme` for CSV/readme reads of the named path,
`frameStack` for the per-sample `stack_frame_files` branch, `issueLog` and
`citation` for the network metadata fetches (`none` embeds the caught
failure). -/

structure Oracles where
  ingest : Option Schema → Bool → List String → Option PTable
  numCast : String → List String → Option (List String)
  dateConv : List String → List String
  readVars : String → List FieldRow
  readTab : String → PTable
  readRme : String → Option PTable
  frameStack : List String → List (String × PTable)
  issueLog : Option PTable
  citation : String → Option String

/-- Rows of the resource CSV files shipped with the package:
science_review_variables.csv, sensor_positions_variables.csv and
sensor_positions_variables_mapping.csv (data files, not code). -/
structure ResourceVars where
  srfVars : List FieldRow
  spVars : List FieldRow
  spInternal : List FieldRow

/-- Output of one successful per-table assembly: the stacklist key, the
stacked table, the warnings logged and the release tags seen. -/
structure TableOut where
  key : String
  tab : PTable
  logs : List String
  rels : List String
deriving DecidableEq, Repr

/-- Schema selection for one table: the variables rows filtered to the
table (falling back to the `_pub` name), the fixed internal schema for
`sensor_positions`, the basic-package filter, and the empty-schema warning
("Variables file not found for table ...") with `tableschema = None`. -/
def schemaPhase (v spInternal : List FieldRow) (package j : String) :
    Option Schema × List String × List FieldRow :=
  let vtab0 := v.filter (fun r => r.table = j)
  let vtab1 := if vtab0 = [] then v.filter (fun r => r.table = j ++ "_pub") else vtab0
  let vtab := if j = "sensor_positions" then spInternal else vtab1
  let tablepkgvar := if package = "basic" then vtab.filter (fun r => r.downloadPkg = "basic") else vtab
  match get_variables tablepkgvar with
  | none =>
    (none, ["Variables file not found for table " ++ j ++ ". Data types will be inferred if possible."], tablepkgvar)
  | some s => (some s, [], tablepkgvar)

/-- File subset for one table: the regex `[.]j[.]|[.]j_pub[.]` searched over
the full path. -/
def tablePathsOf (filepaths : List String) (j : String) : List String :=
  filepaths.filter (fun f => shas ("." ++ j ++ ".") f || shas ("." ++ j ++ "_pub.") f)

/-- First element of `get_recent_publication`; the error embeds the
uncaught `ValueError`/`IndexError` of `get_recent_publication(...)[0]`. -/
def recentHead (paths : List String) (e : JobErr) : Except JobErr String :=
  match get_recent_publication paths with
  | none => .error e
  | some [] => .error e
  | some (p :: _) => .ok p

/-- Error-propagating map over a list of keys (the per-key loops of the
lab and site-all subsetting). -/
def exceptMapM (f : String → Except JobErr String) : List String → Except JobErr (List String)
  | [] => .ok []
  | a :: l =>
    match f a with
    | .error e => .error e
    | .ok b => (exceptMapM f l).map (fun bs => b :: bs)

/-- Recency subsetting of the per-table file list: for `lab` tables the
most recent file per lab, for `site-all` tables the most recent file per
site, for any other type every file.  The per-key subset is
`re.compile(k).search(f)`, a substring search over the full path. -/
def recencyPhase (ttype j : String) (tablepaths : List String) :
    Except JobErr (List String) :=
  if ttype = "lab" then
    match find_lab_names tablepaths with
    | none => .error (.labName j)
    | some labs =>
      exceptMapM (fun k => recentHead (tablepaths.filter (fun f => shas k f)) (.recency j)) labs
  else if ttype = "site-all" then
    match find_sites tablepaths with
    | none => .error (.siteName j)
    | some sites =>
      exceptMapM (fun k => recentHead (tablepaths.filter (fun f => shas k f)) (.recency j)) sites
  else .ok tablepaths

/-- Two-attempt ingestion: the typed (or inferred) attempt, then on failure
the retry under an all-string schema with the mismatch warning; `none`
means both attempts failed and the table is skipped (`continue`). -/
def ingestPhase (oc : Oracles) (sch : Option Schema) (tablepkgvar : List FieldRow)
    (tps : List String) (j : String) : Option (PTable × Bool × List String) :=
  match oc.ingest sch false tps with
  | some tb => some (tb, false, [])
  | none =>
    let retrySchema : Option Schema := match sch with
      | some _ => string_schema tablepkgvar
      | none => none
    match oc.ingest retrySchema true tps with
    | some tb =>
      some (tb, true,
        ["Table " ++ j ++ " schema did not match data; all variable types set to string. Data type casting will be attempted after stacking step."])
    | none => none

/-- Publication-date and release columns appended from the `__filename`
column: the timestamp regex over the basename and the release segment over
the full path; errors embed the uncaught `AttributeError` on a
non-matching name.  Also returns the deduplicated release tags. -/
def pubRelPhase (tb : PTable) (j : String) : Except JobErr (PTable × List String) :=
  match idxOfCol "__filename" tb.cols with
  | none => .error (.fileCol j)
  | some fi =>
    let fns := getColAt tb fi
    match fns.mapM (fun p => scanFirst tsAt 16 (basenameC p.data)) with
    | none => .error (.pubStamp j)
    | some stamps =>
      let t1 := addColEnd tb "publicationDate" (stamps.map String.mk)
      match fns.mapM (fun p => extractRelease p.data) with
      | none => .error (.releaseTag j)
      | some rels =>
        let relstrs := rels.map String.mk
        .ok (addColEnd t1 "release" relstrs, uniqueFirst relstrs)

/-- Provenance columns and row sort.  For a table without its own `siteID`
column and not of `lab` type, domain and site codes are extracted from the
file names (`re.sub("D[0-9]{2}[.]|[.]", "", s)` is embedded as dropping
the four-character domain segment and the dots); non-`sensor_positions`
tables additionally get horizontal/vertical positions when every file name
carries the position segment, and are then sorted; `sensor_positions`
itself is not sorted here; all other tables are sorted directly. -/
def provenancePhase (tb : PTable) (ttype j : String) : Except JobErr PTable :=
  if "siteID" ∉ tb.cols ∧ ¬ ttype = "lab" then
    match idxOfCol "__filename" tb.cols with
    | none => .error (.fileCol j)
    | some fi =>
      let fns := getColAt tb fi
      match fns.mapM (fun d => scanFirst domAt 3 d.data) with
      | none => .error (.domainCode j)
      | some doms =>
        let t1 := insertColAt tb 0 "domainID" (doms.map String.mk)
        match fns.mapM (fun s => scanFirst domSiteAt 9 s.data) with
        | none => .error (.siteCode j)
        | some segs =>
          let sites := segs.map (fun s => String.mk ((s.drop 4).filter (fun c => ¬ c = '.')))
          let t2 := insertColAt t1 1 "siteID" sites
          if ¬ j = "sensor_positions" then
            let locs := fns.map (fun l => scanFirst locAt 17 l.data)
            if locs.contains none then .ok (sort_dat t2)
            else match locs.mapM id with
              | none => .ok (sort_dat t2)
              | some ixs =>
                let hor := ixs.map (fun ix => String.mk ((ix.drop 5).take 3))
                let ver := ixs.map (fun ix => String.mk ((ix.drop 9).take 3))
                .ok (sort_dat (insertColAt (insertColAt t2 2 "horizontalPosition" hor) 3 "verticalPosition" ver))
          else .ok t2
  else .ok (sort_dat tb)

/-- Table-specific post-processing and removal of the `__filename`
column. -/
def postPhase (tb : PTable) (j : String) : Except JobErr PTable := do
  let t1 ← if j = "science_review_flags" then
      match remove_srf_dups tb with
      | some u => Except.ok u
      | none => Except.error (JobErr.srfCols j)
    else Except.ok tb
  let t2 ← if j = "sensor_positions" then
      match align_sp_cols t1 with
      | some u => Except.ok u
      | none => Except.error (JobErr.spCols j)
    else Except.ok t1
  match idxOfCol "__filename" t2.cols with
  | some i => Except.ok (dropColAt t2 i)
  | none => Except.error (JobErr.fileCol j)

/-- Stacklist key of one table. -/
def outName (j dpnum : String) : String :=
  if j = "science_review_flags" ∨ j = "sensor_positions" then j ++ "_" ++ dpnum else j

/-- One iteration of the per-table stacking loop.  `.ok none` embeds
`continue` after both ingestion attempts fail; `.error` embeds an uncaught
exception that aborts the whole job. -/
def stackOneTable (oc : Oracles) (v spInternal : List FieldRow)
    (package dpnum : String) (filepaths : List String)
    (ttype j : String) : Except JobErr (Option TableOut) := do
  let phase := schemaPhase v spInternal package j
  let tps ← recencyPhase ttype j (tablePathsOf filepaths j)
  match ingestPhase oc phase.1 phase.2.2 tps j with
  | none => return none
  | some (tb0, stringset, logs2) =>
    let cast := if stringset then
        match cast_table_neon oc.numCast oc.dateConv tb0 phase.2.2 with
        | some ct => (ct, ([] : List String))
        | none => (tb0, ["Data type casting failed for table " ++ j ++ ". Variable types set to string."])
      else (tb0, [])
    let pr ← pubRelPhase cast.1 j
    let tb3 ← provenancePhase pr.1 ttype j
    let tb4 ← postPhase tb3 j
    return some { key := outName j dpnum, tab := tb4,
                  logs := phase.2.1 ++ logs2 ++ cast.2, rels := pr.2 }

/-- The per-table loop: an error aborts the whole job, a skipped table is
dropped, successes are collected in order. -/
def tablesLoop (f : String → Except JobErr (Option TableOut)) :
    List String → Except JobErr (List TableOut)
  | [] => .ok []
  | t :: ts => match f t with
    | .error e => .error e
    | .ok none => tablesLoop f ts
    | .ok (some a) => (tablesLoop f ts).map (fun l => a :: l)

/-- Table-to-type mapping of one job: `find_table_types` plus the forced
assignments of `sensor_positions` and `science_review_flags`
(unzip_and_stack.py lines 727-732). -/
def jobTables (filenames filepaths : List String) :
    Except JobErr (List (String × String)) :=
  match find_table_types filenames with
  | .error e => .error e
  | .ok tt0 =>
    let tt1 := if filepaths.any (fun p => shas "sensor_positions" p) then
        aupdate "sensor_positions" "site-all" tt0
      else tt0
    let tt2 := if filepaths.any (fun p => shas "science_review_flags" p) then
        aupdate "science_review_flags" "site-date" tt1
      else tt1
    .ok tt2

/-- Variables frame of a `FieldRow` list, as a stacklist entry. -/
def varsTable (v : List FieldRow) : PTable :=
  { cols := ["table", "fieldName", "dataType", "pubFormat", "downloadPkg"],
    rows := v.map (fun r => [r.table, r.fieldName, r.dataType, r.pubFormat, r.downloadPkg]) }

/-- Variables-file selection and augmentation.  The presence guard is the
regex `variables.20` (wildcard dot), while the recency subset uses the
literal substring; a present guard with no literal match aborts via the
`max()` `ValueError`.  The resource rows for science review flags and
sensor positions are appended when those tables are present but missing
from the variables file.  `none` in the first component records that no
variables entry was created. -/
def jobVariables (oc : Oracles) (rv : ResourceVars) (filepaths : List String)
    (dpnum : String) : Except JobErr (Option (List FieldRow) × List (String × PTable)) :=
  if filepaths.any (fun p => (scanPos varGuardAt p.data).isSome) then
    match recentHead (filepaths.filter (fun p => shas "variables.20" p)) JobErr.metaRecency with
    | .error e => .error e
    | .ok varpath =>
      let v0 := oc.readVars varpath
      let v1 := if ¬ (v0.map (fun r => r.table)).contains "science_review_flags" ∧
          filepaths.any (fun p => shas "science_review_flags" p) then v0 ++ rv.srfVars
        else v0
      let v2 := if filepaths.any (fun p => shas "sensor_positions" p) ∧
          ¬ (v1.map (fun r => r.table)).contains "sensor_positions" then v1 ++ rv.spVars
        else v1
      .ok (some v2, [("variables_" ++ dpnum, varsTable v2)])
  else .ok (none, [])

/-- Validation-file entry, recency-resolved over the whole job. -/
def jobValidation (oc : Oracles) (filepaths : List String) (dpnum : String) :
    Except JobErr (List (String × PTable)) :=
  if filepaths.any (fun p => shas "validation" p) then
    match recentHead (filepaths.filter (fun p => shas "validation" p)) JobErr.metaRecency with
    | .error e => .error e
    | .ok p => .ok [("validation_" ++ dpnum, oc.readTab p)]
  else .ok []

/-- CategoricalCodes-file entry, recency-resolved over the whole job. -/
def jobCatCodes (oc : Oracles) (filepaths : List String) (dpnum : String) :
    Except JobErr (List (String × PTable)) :=
  if filepaths.any (fun p => shas "categoricalCodes" p) then
    match recentHead (filepaths.filter (fun p => shas "categoricalCodes" p)) JobErr.metaRecency with
    | .error e => .error e
    | .ok p => .ok [("categoricalCodes_" ++ dpnum, oc.readTab p)]
  else .ok []

/-- Readme entry from the text files of the download; a failed read is
caught and skipped.  The site-specific-text rewriting of `format_readme` is
inside the `readRme` oracle (no claim concerns its content). -/
def jobReadme (oc : Oracles) (txtpaths : List String) (dpnum : String) :
    Except JobErr (List (String × PTable)) :=
  if txtpaths.any (fun p => (scanPos rmeGuardAt p.data).isSome) then
    match recentHead (txtpaths.filter (fun p => shas "readme.20" p)) JobErr.metaRecency with
    | .error e => .error e
    | .ok p =>
      match oc.readRme p with
      | none => .ok []
      | some rd => .ok [("readme_" ++ dpnum, rd)]
  else .ok []

/-- Match for `RELEASE-20[0-9]{2}` anchored at the head. -/
def relTagAt : List Char → Bool
  | 'R' :: 'E' :: 'L' :: 'E' :: 'A' :: 'S' :: 'E' :: '-' :: '2' :: '0' :: c1 :: c2 :: _ =>
    c1.isDigit && c2.isDigit
  | _ => false

/-- Data-product identifiers whose per-sample files bypass the normal
stacking pipeline. -/
def frameDpids : List String :=
  ["DP1.30012.001", "DP1.10081.001", "DP1.20086.001", "DP1.20141.001",
   "DP1.20190.001", "DP1.20193.001", "DP1.10081.002", "DP1.20086.002",
   "DP1.20141.002", "DP4.00132.001"]

/-- Final output bundle of one stacking job: named tables, named text
artifacts (citations), and warnings. -/
structure JobOut where
  entries : List (String × PTable)
  texts : List (String × String)
  logs : List String
deriving DecidableEq, Repr

/-- Embedding of `stack_data_files_parallel` (unzip_and_stack.py lines
641-1035), non-cloud path.  `txtpaths` is the `.txt` glob used for the
readme.  The variables-table augmentation with provenance rows
(`added_fields.csv` into `vlist`) is not modelled — no claim concerns the
final variables table content; the `variables_<dpnum>` entry keeps the
loaded rows.  An `.error` result embeds an uncaught Python exception
aborting the whole call. -/
def stack_data_files_parallel (oc : Oracles) (rv : ResourceVars)
    (filepaths txtpaths : List String) (package dpid : String) :
    Except JobErr JobOut := do
  let dpnum := String.mk ((dpid.data.drop 4).take 5)
  let filenames0 := filepaths.map basenameS
  let isFrame := frameDpids.contains dpid ∧
    (filenames0.filter (fun f => ¬ startsWithSeg "NEON.".data f.data)).length > 0
  let framefiles := if isFrame then
      filepaths.filter (fun f => ¬ startsWithSeg "NEON.".data (basenameC f.data))
    else []
  let fps := if isFrame then
      filepaths.filter (fun f => startsWithSeg "NEON.".data (basenameC f.data))
    else filepaths
  let frameEntries := if isFrame then oc.frameStack framefiles else []
  let filenames := fps.map basenameS
  if fps = [] then Except.error JobErr.noData
  else do
  let tt ← jobTables filenames fps
  let varOut ← jobVariables oc rv fps dpnum
  let valEntries ← jobValidation oc fps dpnum
  let ccEntries ← jobCatCodes oc fps dpnum
  let rmeEntries ← jobReadme oc txtpaths dpnum
  let v ← match varOut.1 with
    | some v => Except.ok v
    | none => Except.error JobErr.varsKey
  let tables := tt.map (fun p => p.1)
  let outs ← tablesLoop
    (fun j => stackOneTable oc v rv.spInternal package dpnum fps ((alookup j tt).getD "") j)
    tables
  let releases := uniqueFirst (outs.foldr (fun o acc => o.rels ++ acc) [])
  let provEntry := if releases.contains "PROVISIONAL" then
      match oc.citation "PROVISIONAL" with
      | some c => [("citation_" ++ dpnum ++ "_PROVISIONAL", c)]
      | none => []
    else []
  let rs := (releases.filterMap (fun r => scanFirst relTagAt 12 r.data)).map String.mk
  let relEntry := match rs with
    | [r0] =>
      match oc.citation r0 with
      | some c => [("citation_" ++ dpnum ++ "_" ++ r0, c)]
      | none => []
    | _ => []
  let relLog := if rs.length > 1 then
      ["Multiple data releases were stacked together. This is not appropriate, check your input data."]
    else []
  let issueEntries := match oc.issueLog with
    | some t => [("issueLog_" ++ dpnum, t)]
    | none => []
  Except.ok {
    entries := frameEntries ++ varOut.2 ++ valEntries ++ ccEntries ++ rmeEntries ++
      outs.map (fun o => (o.key, o.tab)) ++ issueEntries,
    texts := provEntry ++ relEntry,
    logs := (outs.foldr (fun o acc => o.logs ++ acc) []) ++ relLog }

/-! ### Definitions following the specification wording

These are written from the specification text, to be compared with the
definitions embedded from the source. -/

/-- Follows the claim wording for the recency resolver: the subset of files
whose full publication timestamp string (format YYYYMMDDThhmmssZ, first
match in the basename) is the lexicographic maximum over the list. -/
def lexMaxTimestampSubset (filepaths : List String) : List String :=
  let stamps := filepaths.filterMap (fun f => scanFirst tsAt 16 (basenameC f.data))
  match stamps with
  | [] => []
  | d :: ds =>
    let m := ds.foldl (fun a b => if clLt a b then b else a) d
    filepaths.filter (fun f => scanFirst tsAt 16 (basenameC f.data) = some m)

/-- Follows the specification wording for the shape-derived policy (§4.1):
fewer than 7 dot-delimited components means lab; otherwise a YYYY-MM token
in some component means site-date; otherwise site-all. -/
def specShapePolicy (flname : List String) : String :=
  if flname.length < 7 then "lab"
  else if flname.any (fun f => hasYM f) then "site-date"
  else "site-all"

/-- Timestamp pubFormat variants of the §4.2 type-mapping table. -/
def tsVariants : List String :=
  ["yyyy-MM-dd\x27T\x27HH:mm:ss\x27Z\x27(floor)",
   "yyyy-MM-dd\x27T\x27HH:mm:ss\x27Z\x27",
   "yyyy-MM-dd\x27T\x27HH:mm:ss\x27Z\x27(round)"]

/-- Date pubFormat variants of the §4.2 type-mapping table. -/
def dateVariants : List String := ["yyyy-MM-dd(floor)", "yyyy-MM-dd"]

/-- Year pubFormat variants of the §4.2 type-mapping table. -/
def yearVariants : List String := ["yyyy(floor)", "yyyy(round)"]

/-! ### Supporting lemmas -/

theorem get_variables_aux (f : FieldRow → String × PaType)
    (step : Option Schema → FieldRow → Option Schema)
    (hstep : ∀ s r, step (some s) r = some (s ++ [f r])) :
    ∀ (v : List FieldRow) (s : Schema), v.foldl step (some s) = some (s ++ v.map f) := by
  intro v
  induction v with
  | nil => intro s; simp
  | cons r v ih =>
    intro s
    rw [List.foldl_cons, hstep, ih, List.map_cons]
    simp

theorem get_variables_eq_map (r : FieldRow) (v : List FieldRow) :
    get_variables (r :: v) =
      some ((r :: v).map (fun q => (q.fieldName, neonFieldType q.dataType q.pubFormat))) := by
  rw [get_variables, List.foldl_cons]
  have := get_variables_aux (fun q => (q.fieldName, neonFieldType q.dataType q.pubFormat))
    (fun acc q =>
      match acc with
      | none => some [(q.fieldName, neonFieldType q.dataType q.pubFormat)]
      | some s => some (s ++ [(q.fieldName, neonFieldType q.dataType q.pubFormat)]))
    (fun s q => rfl) v [(r.fieldName, neonFieldType r.dataType r.pubFormat)]
  simpa using this

/-! ### Claim C3 -/

/-- C3: the schema builder realizes exactly the specified type mapping: the
schema lists one field per variables row in order, and the per-row type is
real to 64-bit float; integer, unsigned integer and signed integer to
64-bit integer; string and uri to string; dateTime with a HH:mm:ss-Z
pubFormat variant to a UTC second-precision timestamp; dateTime with a
yyyy-MM-dd variant to a date; dateTime with a yyyy variant to integer; and
dateTime with any other pubFormat to string. -/
theorem c3_get_variables_type_mapping (r : FieldRow) (v : List FieldRow) :
    get_variables (r :: v) =
      some ((r :: v).map (fun q => (q.fieldName, neonFieldType q.dataType q.pubFormat))) ∧
    (∀ d p,
      (d = "real" → neonFieldType d p = .float64) ∧
      ((d = "integer" ∨ d = "unsigned integer" ∨ d = "signed integer") →
        neonFieldType d p = .int64) ∧
      ((d = "string" ∨ d = "uri") → neonFieldType d p = .string) ∧
      (d = "dateTime" → p ∈ tsVariants → neonFieldType d p = .timestampUTC) ∧
      (d = "dateTime" → p ∈ dateVariants → neonFieldType d p = .date64) ∧
      (d = "dateTime" → p ∈ yearVariants → neonFieldType d p = .int64) ∧
      (d = "dateTime" → p ∉ tsVariants → p ∉ dateVariants → p ∉ yearVariants →
        neonFieldType d p = .string)) := by
  refine ⟨get_variables_eq_map r v, ?_⟩
  intro d p
  refine ⟨?_, ?_, ?_, ?_, ?_, ?_, ?_⟩
  · rintro rfl; rfl
  · rintro (rfl | rfl | rfl) <;> rfl
  · rintro (rfl | rfl) <;> rfl
  · rintro rfl hp
    simp only [tsVariants, List.mem_cons, List.not_mem_nil, or_false] at hp
    rcases hp with rfl | rfl | rfl <;> rfl
  · rintro rfl hp
    simp only [dateVariants, List.mem_cons, List.not_mem_nil, or_false] at hp
    rcases hp with rfl | rfl <;> rfl
  · rintro rfl hp
    simp only [yearVariants, List.mem_cons, List.not_mem_nil, or_false] at hp
    rcases hp with rfl | rfl <;> rfl
  · rintro rfl h1 h2 h3
    simp only [tsVariants, List.mem_cons, List.not_mem_nil, or_false, not_or] at h1
    simp only [dateVariants, List.mem_cons, List.not_mem_nil, or_false, not_or] at h2
    simp only [yearVariants, List.mem_cons, List.not_mem_nil, or_false, not_or] at h3
    simp [neonFieldType, h1.1, h1.2.1, h1.2.2, h2.1, h2.2, h3.1, h3.2]

/-! ### Claim C7 -/

/-- C7: the shape-derived policy of `table_type_formats` coincides with the
specified rule (fewer than 7 dot components: lab; a YYYY-MM token among 7
or more components: site-date; otherwise site-all), and in a job's final
table-to-policy mapping `sensor_positions` is always assigned site-all and
`science_review_flags` always site-date whenever files for them are
present, regardless of file shapes. -/
theorem c7_policy_shape_and_overrides :
    (∀ flname : List String, table_type_formats flname = specShapePolicy flname) ∧
    (∀ filenames filepaths tt, jobTables filenames filepaths = .ok tt →
      (filepaths.any (fun p => shas "sensor_positions" p) = true →
        alookup "sensor_positions" tt = some "site-all") ∧
      (filepaths.any (fun p => shas "science_review_flags" p) = true →
        alookup "science_review_flags" tt = some "site-date")) := by
  constructor
  · intro flname
    rw [table_type_formats, specShapePolicy]
    by_cases hlen : flname.length ≤ 6
    · rw [if_pos hlen, if_pos (Nat.lt_succ_iff.mpr hlen)]
    · rw [if_neg hlen, if_neg (fun h => hlen (Nat.lt_succ_iff.mp h))]
      by_cases hym : flname.any (fun f => hasYM f) = true
      · rcases List.any_eq_true.mp hym with ⟨x, hx, hpx⟩
        rw [if_pos (fun hnil => ?_), if_pos hym]
        have := List.filter_eq_nil.mp hnil x hx
        exact this hpx
      · rw [if_neg (fun hne => ?_), if_neg hym]
        rcases List.exists_mem_of_ne_nil _ hne with ⟨x, hx⟩
        exact hym (List.any_eq_true.mpr ⟨x, List.mem_of_mem_filter hx, List.of_mem_filter hx⟩)
  · intro filenames filepaths tt htt
    rw [jobTables] at htt
    cases hftt : find_table_types filenames with
    | error e => rw [hftt] at htt; exact absurd htt (by simp)
    | ok tt0 =>
      rw [hftt] at htt
      simp only [Except.ok.injEq] at htt
      subst htt
      constructor
      · intro hsp
        rw [if_pos hsp]
        by_cases hsrf : filepaths.any (fun p => shas "science_review_flags" p) = true
        · rw [if_pos hsrf,
            alookup_aupdate_ne (by decide : ("science_review_flags" : String) ≠ "sensor_positions"),
            alookup_aupdate_self]
        · rw [if_neg hsrf, alookup_aupdate_self]
      · intro hsrf
        rw [if_pos hsrf, alookup_aupdate_self]

/-- C7 witness: the shape rule and both overrides at a concrete job. -/
theorem c7_policy_shape_and_overrides_witness :
    table_type_formats ["NEON", "D01", "ABBY", "DP1", "00001", "001", "tbl_one",
      "2021-05", "basic", "20240101T000000Z", "csv"] =
      specShapePolicy ["NEON", "D01", "ABBY", "DP1", "00001", "001", "tbl_one",
        "2021-05", "basic", "20240101T000000Z", "csv"] ∧
    alookup "sensor_positions"
      [("tbl_one", "site-date"), ("sensor_positions", "site-all"),
        ("science_review_flags", "site-date")] = some "site-all" ∧
    alookup "science_review_flags"
      [("tbl_one", "site-date"), ("sensor_positions", "site-all"),
        ("science_review_flags", "site-date")] = some "site-date" := by
  have h2 := (c7_policy_shape_and_overrides.2
    ["NEON.D01.ABBY.DP1.00001.001.tbl_one.2021-05.basic.20240101T000000Z.csv",
     "NEON.D01.ABBY.DP1.00001.001.sensor_positions.20240101T000000Z.csv",
     "NEON.D01.ABBY.DP1.00001.001.science_review_flags.20240101T000000Z.csv"]
    ["NEON.D01.ABBY.DP1.00001.001.tbl_one.2021-05.basic.20240101T000000Z.csv",
     "NEON.D01.ABBY.DP1.00001.001.sensor_positions.20240101T000000Z.csv",
     "NEON.D01.ABBY.DP1.00001.001.science_review_flags.20240101T000000Z.csv"]
    [("tbl_one", "site-date"), ("sensor_positions", "site-all"),
     ("science_review_flags", "site-date")] (by decide))
  exact ⟨c7_policy_shape_and_overrides.1 _, h2.1 (by decide), h2.2 (by decide)⟩

/-! ### Claim C2 -/

/-- Ambiguity of one table name over a split-name list: two member files
whose shape-derived types differ. -/
def ambiguousSplit (splitnames : List (List String)) (t : String) : Prop :=
  ∃ p1 ∈ splitnames, ∃ p2 ∈ splitnames,
    matchesTable t p1 = true ∧ matchesTable t p2 = true ∧
    table_type_formats p1 ≠ table_type_formats p2

instance (splitnames : List (List String)) (t : String) :
    Decidable (ambiguousSplit splitnames t) := by
  unfold ambiguousSplit
  infer_instance

theorem ufGo_nil_of_sub :
    ∀ {seen l : List String}, (∀ x ∈ l, x ∈ seen) → ufGo seen l = [] := by
  intro seen l
  induction l generalizing seen with
  | nil => intro _; rfl
  | cons a t ih =>
    intro h
    rw [ufGo, if_pos (h a (List.mem_cons_self _ _))]
    exact ih (fun x hx => h x (List.mem_cons_of_mem _ hx))

theorem uniqueFirst_singleton {l : List String} {c : String} (hne : l ≠ [])
    (hall : ∀ x ∈ l, x = c) : uniqueFirst l = [c] := by
  cases l with
  | nil => exact absurd rfl hne
  | cons a t =>
    have ha : a = c := hall a (List.mem_cons_self _ _)
    subst ha
    rw [uniqueFirst, ufGo, if_neg (by simp)]
    refine congrArg (a :: ·) (ufGo_nil_of_sub ?_)
    intro x hx
    rw [hall x (List.mem_cons_of_mem _ hx)]
    exact List.mem_cons_self _ _

theorem classifyTables_ambiguous (splitnames : List (List String)) :
    ∀ (tn : List String),
    (∀ t' ∈ tn, splitnames.filter (fun parts => matchesTable t' parts) ≠ []) →
    (∃ t' ∈ tn, ambiguousSplit splitnames t') →
    ∃ t'', classifyTables splitnames tn = .error (.conflictingSchedules t'') ∧
      ambiguousSplit splitnames t'' := by
  intro tn
  induction tn with
  | nil => rintro _ ⟨t', ht', _⟩; simp at ht'
  | cons t0 rest ih =>
    intro hmatch hex
    by_cases hamb0 : ambiguousSplit splitnames t0
    · rcases hamb0 with ⟨p1, hp1, p2, hp2, hm1, hm2, hdiff⟩
      have h1 : table_type_formats p1 ∈
          uniqueFirst ((splitnames.filter (fun parts => matchesTable t0 parts)).map table_type_formats) :=
        uniqueFirst_sub (List.mem_map_of_mem _ (List.mem_filter.mpr ⟨hp1, hm1⟩))
      have h2 : table_type_formats p2 ∈
          uniqueFirst ((splitnames.filter (fun parts => matchesTable t0 parts)).map table_type_formats) :=
        uniqueFirst_sub (List.mem_map_of_mem _ (List.mem_filter.mpr ⟨hp2, hm2⟩))
      rw [classifyTables]
      cases httk : uniqueFirst ((splitnames.filter (fun parts => matchesTable t0 parts)).map table_type_formats) with
      | nil => rw [httk] at h1; simp at h1
      | cons ty tys =>
        cases tys with
        | nil =>
          rw [httk] at h1 h2
          simp only [List.mem_singleton] at h1 h2
          exact absurd (h1.trans h2.symm) hdiff
        | cons ty2 tys2 =>
          exact ⟨t0, rfl, ⟨p1, hp1, p2, hp2, hm1, hm2, hdiff⟩⟩
    · rcases hex with ⟨t', ht', hambt'⟩
      have ht'rest : t' ∈ rest := by
        rcases List.mem_cons.mp ht' with rfl | h
        · exact absurd hambt' hamb0
        · exact h
      have hmne : splitnames.filter (fun parts => matchesTable t0 parts) ≠ [] :=
        hmatch t0 (List.mem_cons_self _ _)
      rcases List.exists_mem_of_ne_nil _ hmne with ⟨p0, hp0⟩
      have hall : ∀ x ∈ (splitnames.filter (fun parts => matchesTable t0 parts)).map table_type_formats,
          x = table_type_formats p0 := by
        rintro x hx
        rcases List.mem_map.mp hx with ⟨p, hp, rfl⟩
        by_contra hne
        exact hamb0 ⟨p, List.mem_of_mem_filter hp, p0, List.mem_of_mem_filter hp0,
          List.of_mem_filter hp, List.of_mem_filter hp0, hne⟩
      have hsingle : uniqueFirst ((splitnames.filter (fun parts => matchesTable t0 parts)).map table_type_formats) =
          [table_type_formats p0] :=
        uniqueFirst_singleton (by
          intro hc
          rw [List.map_eq_nil] at hc
          exact hmne hc) hall
      rw [classifyTables, hsingle]
      rcases ih (fun u hu => hmatch u (List.mem_cons_of_mem _ hu)) ⟨t', ht'rest, hambt'⟩ with
        ⟨t'', herr, hambt''⟩
      refine ⟨t'', ?_, hambt''⟩
      rw [herr]
      rfl

/-- C2: whenever files resolving to one candidate table name disagree on
the shape-derived selection policy (and every candidate table has at least
one matching file, so classification reaches the conflict), table-type
classification raises the conflicting-publication-schedules error naming an
ambiguous table, rather than returning a mapping. -/
theorem c2_find_table_types_ambiguous (datatables : List String) (t : String)
    (hcand : t ∈ tableCandidates datatables)
    (hmatch : ∀ t' ∈ uniqueFirst (tableCandidates datatables),
      (splitNamesOf datatables).filter (fun parts => matchesTable t' parts) ≠ [])
    (hamb : ambiguousSplit (splitNamesOf datatables) t) :
    ∃ t'', find_table_types datatables = .error (.conflictingSchedules t'') ∧
      ambiguousSplit (splitNamesOf datatables) t'' := by
  rw [find_table_types]
  have hne : tableCandidates datatables ≠ [] := fun h => by
    rw [h] at hcand
    simp at hcand
  simp only [if_neg hne]
  exact classifyTables_ambiguous _ _ hmatch ⟨t, uniqueFirst_sub hcand, hamb⟩

/-- C2 witness: a job mixing a site-date-shaped and a site-all-shaped file
of the same table raises the conflicting-schedules error for that table. -/
theorem c2_find_table_types_ambiguous_witness :
    ∃ t'', find_table_types
        ["NEON.D01.ABBY.DP1.00001.001.tbl_one.2021-05.basic.20240101T000000Z.csv",
         "NEON.D01.ABBY.DP1.00001.001.tbl_one.20240101T000000Z.csv"] =
      .error (.conflictingSchedules t'') ∧
      ambiguousSplit (splitNamesOf
        ["NEON.D01.ABBY.DP1.00001.001.tbl_one.2021-05.basic.20240101T000000Z.csv",
         "NEON.D01.ABBY.DP1.00001.001.tbl_one.20240101T000000Z.csv"]) t'' :=
  c2_find_table_types_ambiguous _ "tbl_one" (by decide) (by decide) (by decide)

/-! ### Claim C8 -/

theorem filterMap_congr_mem {α β : Type _} {f g : α → Option β} :
    ∀ {l : List α}, (∀ a ∈ l, f a = g a) → l.filterMap f = l.filterMap g := by
  intro l
  induction l with
  | nil => intro _; rfl
  | cons a t ih =>
    intro h
    rw [List.filterMap_cons, List.filterMap_cons, h a (List.mem_cons_self _ _),
      ih (fun x hx => h x (List.mem_cons_of_mem _ hx))]

theorem ddk_aux (f g : α → String) (l : List α) :
    ∀ ids : List String, (∀ k ∈ ids, k ∈ l.map f) →
      (ids.filterMap (fun k => pickMax g (l.filter (fun r => f r = k)))).map f = ids := by
  intro ids
  induction ids with
  | nil => intro _; rfl
  | cons k ids ih =>
    intro h
    rcases List.mem_map.mp (h k (List.mem_cons_self _ _)) with ⟨r, hr, hfr⟩
    have hrf : r ∈ l.filter (fun r => f r = k) :=
      List.mem_filter.mpr ⟨hr, by simp [hfr]⟩
    rcases pickMax_isSome (g := g) (List.ne_nil_of_mem hrf) with ⟨m, hm⟩
    have hmf : f m = k := by
      have := List.of_mem_filter (pickMax_mem hm)
      simpa using this
    rw [List.filterMap_cons, hm, List.map_cons, hmf,
      ih (fun x hx => h x (List.mem_cons_of_mem _ hx))]

theorem dedupKeyMax_map_keys (f g : α → String) (l : List α) :
    (dedupKeyMax f g l).map f = uniqueFirst (l.map f) :=
  ddk_aux f g l (uniqueFirst (l.map f)) (fun _ hk => mem_uniqueFirst hk)

theorem dedupKeyMax_nodup_keys (f g : α → String) (l : List α) :
    ((dedupKeyMax f g l).map f).Nodup := by
  rw [dedupKeyMax_map_keys]
  exact nodup_uniqueFirst _

theorem dedupKeyMax_eq_self (f g : α → String) :
    ∀ {l : List α}, (l.map f).Nodup → dedupKeyMax f g l = l := by
  intro l
  induction l with
  | nil => intro _; rfl
  | cons r rest ih =>
    intro hnd
    rw [List.map_cons] at hnd
    rcases List.nodup_cons.mp hnd with ⟨hfr, hnd'⟩
    rw [dedupKeyMax, uniqueFirst_eq_self (by rw [List.map_cons]; exact hnd)]
    rw [List.map_cons, List.filterMap_cons]
    have hfilt : rest.filter (fun x => f x = f r) = [] := by
      rw [List.filter_eq_nil]
      intro x hx
      simp only [decide_eq_true_eq]
      intro he
      exact hfr (he ▸ List.mem_map_of_mem f hx)
    have hhead : (r :: rest).filter (fun x => f x = f r) = [r] := by
      rw [List.filter_cons, if_pos (by simp)]
      rw [hfilt]
    rw [hhead]
    have hrec : (rest.map f).filterMap
        (fun k => pickMax g ((r :: rest).filter (fun x => f x = k))) =
        (rest.map f).filterMap (fun k => pickMax g (rest.filter (fun x => f x = k))) := by
      apply filterMap_congr_mem
      intro k hk
      have hkr : ¬ f r = k := by
        intro he
        exact hfr (he ▸ hk)
      rw [List.filter_cons, if_neg (by simpa using hkr)]
    rw [hrec]
    have : (rest.map f).filterMap (fun k => pickMax g (rest.filter (fun x => f x = k))) =
        dedupKeyMax f g rest := by
      rw [dedupKeyMax, uniqueFirst_eq_self hnd']
    rw [this, ih hnd']
    rfl

theorem dedupKeyMax_idem (f g : α → String) (l : List α) :
    dedupKeyMax f g (dedupKeyMax f g l) = dedupKeyMax f g l :=
  dedupKeyMax_eq_self f g (dedupKeyMax_nodup_keys f g l)

/-- C8: the science-review-flags deduplication is idempotent: reapplying
`remove_srf_dups` to its own output returns the output unchanged, same rows
in the same order. -/
theorem c8_remove_srf_dups_idempotent (t u : PTable)
    (h : remove_srf_dups t = some u) : remove_srf_dups u = some u := by
  rw [remove_srf_dups] at h
  cases hsi : idxOfCol "srfID" t.cols with
  | none => rw [hsi] at h; cases hui : idxOfCol "lastUpdateDateTime" t.cols <;>
      rw [hui] at h <;> exact absurd h (by simp)
  | some si =>
    rw [hsi] at h
    cases hui : idxOfCol "lastUpdateDateTime" t.cols with
    | none => rw [hui] at h; exact absurd h (by simp)
    | some ui =>
      rw [hui] at h
      have hu : u = { t with
          rows := dedupKeyMax (fun r => r.getD si "") (fun r => r.getD ui "") t.rows } := by
        exact (Option.some.inj h).symm
      have hcols : u.cols = t.cols := by rw [hu]
      rw [remove_srf_dups, hcols, hsi, hui]
      refine congrArg some ?_
      have hrows : u.rows = dedupKeyMax (fun r => r.getD si "") (fun r => r.getD ui "") t.rows := by
        rw [hu]
      cases u with
      | mk ucols urows =>
        simp only at hrows hcols ⊢
        subst hcols
        subst hrows
        rw [dedupKeyMax_idem]

/-- C8 witness: dedup of a concrete SRF table with a superseded record, and
the idempotent second pass. -/
theorem c8_remove_srf_dups_idempotent_witness :
    remove_srf_dups
      { cols := ["srfID", "lastUpdateDateTime", "srfComment"],
        rows := [["A", "2021-01-01T00:00:00Z", "p"],
                 ["A", "2021-06-01T00:00:00Z", "q"],
                 ["B", "2020-01-01T00:00:00Z", "r"]] } =
      some { cols := ["srfID", "lastUpdateDateTime", "srfComment"],
             rows := [["A", "2021-06-01T00:00:00Z", "q"],
                      ["B", "2020-01-01T00:00:00Z", "r"]] } ∧
    remove_srf_dups
      { cols := ["srfID", "lastUpdateDateTime", "srfComment"],
        rows := [["A", "2021-06-01T00:00:00Z", "q"],
                 ["B", "2020-01-01T00:00:00Z", "r"]] } =
      some { cols := ["srfID", "lastUpdateDateTime", "srfComment"],
             rows := [["A", "2021-06-01T00:00:00Z", "q"],
                      ["B", "2020-01-01T00:00:00Z", "r"]] } := by
  refine ⟨by decide, c8_remove_srf_dups_idempotent
    { cols := ["srfID", "lastUpdateDateTime", "srfComment"],
      rows := [["A", "2021-01-01T00:00:00Z", "p"],
               ["A", "2021-06-01T00:00:00Z", "q"],
               ["B", "2020-01-01T00:00:00Z", "r"]] }
    { cols := ["srfID", "lastUpdateDateTime", "srfComment"],
      rows := [["A", "2021-06-01T00:00:00Z", "q"],
               ["B", "2020-01-01T00:00:00Z", "r"]] }
    (by decide)⟩

/-! ### Claim C9 -/

/-- Concatenation of per-file row blocks in list order, modelling the
pyarrow dataset union of the per-table file list. -/
def concatTables (ts : List PTable) : PTable :=
  { cols := ((ts.head?).map PTable.cols).getD [],
    rows := ts.foldr (fun t acc => t.rows ++ acc) [] }

theorem rowsLe_total (idxs : List Nat) (r s : List String) :
    rowsLe idxs r s = true ∨ rowsLe idxs s r = true := by
  induction idxs with
  | nil => exact Or.inl rfl
  | cons i rest ih =>
    by_cases h : r.getD i "" = s.getD i ""
    · rw [rowsLe, rowsLe]
      simp only [if_pos h, if_pos h.symm]
      exact ih
    · have hd : r.getD i "" ≠ s.getD i "" := h
      have hdata : (r.getD i "").data ≠ (s.getD i "").data := fun hc => hd (String.ext hc)
      rcases clLt_trichotomy (r.getD i "").data (s.getD i "").data with hlt | heq | hlt
      · refine Or.inl ?_
        rw [rowsLe]
        simp only [if_neg h]
        exact hlt
      · exact absurd heq hdata
      · refine Or.inr ?_
        rw [rowsLe]
        simp only [if_neg (fun hc : s.getD i "" = r.getD i "" => h hc.symm)]
        exact hlt

theorem rowsLe_trans (idxs : List Nat) {r s t : List String} :
    rowsLe idxs r s = true → rowsLe idxs s t = true → rowsLe idxs r t = true := by
  induction idxs with
  | nil => intro _ _; rfl
  | cons i rest ih =>
    intro h1 h2
    rw [rowsLe] at h1 h2 ⊢
    by_cases hrs : r.getD i "" = s.getD i ""
    · rw [if_pos hrs] at h1
      by_cases hst : s.getD i "" = t.getD i ""
      · rw [if_pos hst] at h2
        rw [if_pos (hrs.trans hst)]
        exact ih h1 h2
      · rw [if_neg hst] at h2
        rw [if_neg (fun hc => hst (hrs ▸ hc)), hrs]
        exact h2
    · rw [if_neg hrs] at h1
      by_cases hst : s.getD i "" = t.getD i ""
      · rw [if_neg (fun hc => hrs (hst ▸ hc)), ← hst]
        exact h1
      · rw [if_neg hst] at h2
        have hlt : clLt (r.getD i "").data (t.getD i "").data = true := clLt_trans h1 h2
        have hrt : ¬ r.getD i "" = t.getD i "" := by
          intro hc
          rw [hc] at h1
          have := clLt_trans h2 h1
          rw [clLt_irrefl] at this
          exact Bool.false_ne_true this
        rw [if_neg hrt]
        exact hlt

theorem rowsLe_antisymm_keys (idxs : List Nat) {r s : List String} :
    rowsLe idxs r s = true → rowsLe idxs s r = true →
    idxs.map (fun i => r.getD i "") = idxs.map (fun i => s.getD i "") := by
  induction idxs with
  | nil => intro _ _; rfl
  | cons i rest ih =>
    intro h1 h2
    rw [rowsLe] at h1 h2
    by_cases hrs : r.getD i "" = s.getD i ""
    · rw [if_pos hrs] at h1
      rw [if_pos hrs.symm] at h2
      rw [List.map_cons, List.map_cons, hrs, ih h1 h2]
    · rw [if_neg hrs] at h1
      rw [if_neg (fun hc : s.getD i "" = r.getD i "" => hrs hc.symm)] at h2
      have h1c : clLt (r.getD i "").data (s.getD i "").data = true := h1
      have h2c : clLt (s.getD i "").data (r.getD i "").data = true := h2
      exact absurd h2c (by rw [clLt_asymm h1c]; exact fun hc => Bool.false_ne_true hc)

/-- Stable sorting by a list of key columns gives the same result on any
two permutations of the rows whose key tuples are pairwise distinct. -/
theorem sortBy_rowsLe_eq (idxs : List Nat) {l1 l2 : List (List String)}
    (hperm : l1.Perm l2)
    (hnd : (l1.map (fun r => idxs.map (fun i => r.getD i ""))).Nodup) :
    sortBy (rowsLe idxs) l1 = sortBy (rowsLe idxs) l2 := by
  refine sorted_perm_eq (rowsLe idxs) (fun r => idxs.map (fun i => r.getD i ""))
    (fun a b h1 h2 => rowsLe_antisymm_keys idxs h1 h2) _ _
    ((perm_sortBy _ l1).trans (hperm.trans (perm_sortBy _ l2).symm))
    (pairwise_sortBy _ (rowsLe_total idxs) (fun h1 h2 => rowsLe_trans idxs h1 h2) l1)
    (pairwise_sortBy _ (rowsLe_total idxs) (fun h1 h2 => rowsLe_trans idxs h1 h2) l2)
    ?_
  exact (((perm_sortBy (rowsLe idxs) l1).map _).nodup_iff).mpr hnd

/-- C9 amended: sorting is deterministic up to the sort key: for a table
with a `siteID` column, no `horizontalPosition` column and a probed date
column, two ingestion orders of the same rows sort identically whenever no
two rows share the (siteID, date) key tuple. -/
theorem c9_sort_deterministic_on_distinct_keys (cols : List String)
    (l1 l2 : List (List String)) (si di : Nat) (dv : String)
    (hhor : "horizontalPosition" ∉ cols)
    (hsi : idxOfCol "siteID" cols = some si)
    (hdv : dateVarOf cols = some dv)
    (hdi : idxOfCol dv cols = some di)
    (hperm : l1.Perm l2)
    (hnd : (l1.map (fun r => [si, di].map (fun i => r.getD i ""))).Nodup) :
    sort_dat { cols := cols, rows := l1 } = sort_dat { cols := cols, rows := l2 } := by
  rw [sort_dat, sort_dat]
  simp only [if_neg hhor, hsi, hdv, Option.bind, hdi]
  exact congrArg (fun rs => PTable.mk cols rs) (sortBy_rowsLe_eq [si, di] hperm hnd)

/-- C9 counterexample: the same two one-row files ingested in the two
orders produce permuted row sets, yet the stacked-and-sorted outputs
differ in row order, because the two rows tie on every sort key; so
stacking is not invariant under input file order as claimed. -/
theorem c9_order_dependence_counterexample :
    (concatTables
        [{ cols := ["siteID", "collectDate", "sampleValue"],
           rows := [["ABBY", "2021-05-01", "1"]] },
         { cols := ["siteID", "collectDate", "sampleValue"],
           rows := [["ABBY", "2021-05-01", "2"]] }]).rows.Perm
      (concatTables
        [{ cols := ["siteID", "collectDate", "sampleValue"],
           rows := [["ABBY", "2021-05-01", "2"]] },
         { cols := ["siteID", "collectDate", "sampleValue"],
           rows := [["ABBY", "2021-05-01", "1"]] }]).rows ∧
    sort_dat (concatTables
        [{ cols := ["siteID", "collectDate", "sampleValue"],
           rows := [["ABBY", "2021-05-01", "1"]] },
         { cols := ["siteID", "collectDate", "sampleValue"],
           rows := [["ABBY", "2021-05-01", "2"]] }]) ≠
      sort_dat (concatTables
        [{ cols := ["siteID", "collectDate", "sampleValue"],
           rows := [["ABBY", "2021-05-01", "2"]] },
         { cols := ["siteID", "collectDate", "sampleValue"],
           rows := [["ABBY", "2021-05-01", "1"]] }]) := by
  constructor
  · exact List.Perm.swap _ _ _
  · decide

/-- C9 amended witness: distinct sort keys restore order determinism at a
concrete pair of ingestion orders. -/
theorem c9_sort_deterministic_on_distinct_keys_witness :
    sort_dat { cols := ["siteID", "collectDate", "sampleValue"],
               rows := [["ABBY", "2021-05-02", "1"], ["ABBY", "2021-05-01", "2"]] } =
      sort_dat { cols := ["siteID", "collectDate", "sampleValue"],
                 rows := [["ABBY", "2021-05-01", "2"], ["ABBY", "2021-05-02", "1"]] } :=
  c9_sort_deterministic_on_distinct_keys ["siteID", "collectDate", "sampleValue"]
    [["ABBY", "2021-05-02", "1"], ["ABBY", "2021-05-01", "2"]]
    [["ABBY", "2021-05-01", "2"], ["ABBY", "2021-05-02", "1"]]
    0 1 "collectDate" (by decide) (by decide) (by decide) (by decide)
    (List.Perm.swap _ _ _) (by decide)

/-! ### Claim C1 -/

theorem startsWithSeg_take : ∀ (n : Nat) (l : List Char), startsWithSeg (l.take n) l = true := by
  intro n l
  induction l generalizing n with
  | nil => cases n <;> rfl
  | cons c t ih =>
    cases n with
    | zero => rfl
    | succ n =>
      rw [List.take_succ_cons, startsWithSeg]
      simp [ih n]

theorem startsWithSeg_append {m : List Char} :
    ∀ {l : List Char}, startsWithSeg m l = true → ∃ r, l = m ++ r := by
  induction m with
  | nil => intro l _; exact ⟨l, rfl⟩
  | cons a s ih =>
    intro l h
    cases l with
    | nil => simp [startsWithSeg] at h
    | cons b t =>
      rw [startsWithSeg, Bool.and_eq_true, decide_eq_true_eq] at h
      rcases ih h.2 with ⟨r, hr⟩
      exact ⟨r, by rw [hr, h.1]; rfl⟩

theorem startsWithSeg_eq_take {m : List Char} :
    ∀ {l : List Char}, startsWithSeg m l = true → l.take m.length = m := by
  induction m with
  | nil => intro l _; rfl
  | cons a s ih =>
    intro l h
    cases l with
    | nil => simp [startsWithSeg] at h
    | cons b t =>
      rw [startsWithSeg, Bool.and_eq_true, decide_eq_true_eq] at h
      rw [List.length_cons, List.take_succ_cons, ih h.2, h.1]

theorem startsWithSeg_nil {m : List Char} (h : startsWithSeg m [] = true) : m = [] := by
  cases m with
  | nil => rfl
  | cons a s => simp [startsWithSeg] at h

theorem date8At_append (l r : List Char) (h : 8 ≤ l.length) :
    date8At (l ++ r) = date8At l := by
  rcases l with _ | ⟨a, _ | ⟨b, _ | ⟨c, _ | ⟨d, _ | ⟨e, _ | ⟨f, _ | ⟨g, _ | ⟨k, t⟩⟩⟩⟩⟩⟩⟩⟩ <;>
    first
      | rfl
      | (exfalso; simp only [List.length_cons, List.length_nil] at h; omega)

theorem date8At_len {l : List Char} (h : date8At l = true) : 8 ≤ l.length := by
  rcases l with _ | ⟨a, _ | ⟨b, _ | ⟨c, _ | ⟨d, _ | ⟨e, _ | ⟨f, _ | ⟨g, _ | ⟨k, t⟩⟩⟩⟩⟩⟩⟩⟩ <;>
    first
      | (simp only [List.length_cons]; omega)
      | simp [date8At] at h

theorem date8At_take {l : List Char} (h : date8At l = true) :
    date8At (l.take 8) = true ∧ (l.take 8).length = 8 := by
  have hlen : 8 ≤ l.length := date8At_len h
  have hsplit : l.take 8 ++ l.drop 8 = l := List.take_append_drop 8 l
  have htl : (l.take 8).length = 8 := by
    rw [List.length_take]
    omega
  refine ⟨?_, htl⟩
  have := date8At_append (l.take 8) (l.drop 8) (by omega)
  rw [hsplit] at this
  rw [← this]
  exact h

theorem mem_scanAll_contains {p : List Char → Bool} {n : Nat} {m : List Char} :
    ∀ {l : List Char}, m ∈ scanAll p n l → containsSeg m l = true := by
  intro l
  induction l with
  | nil =>
    intro h
    rw [scanAll] at h
    by_cases hp : p [] = true
    · rw [if_pos hp] at h
      simp only [List.mem_singleton] at h
      subst h
      rfl
    · rw [if_neg hp] at h
      simp at h
  | cons c t ih =>
    intro h
    rw [scanAll] at h
    rcases List.mem_append.mp h with h | h
    · by_cases hp : p (c :: t) = true
      · rw [if_pos hp] at h
        simp only [List.mem_singleton] at h
        subst h
        rw [containsSeg, Bool.or_eq_true]
        exact Or.inl (startsWithSeg_take n (c :: t))
      · rw [if_neg hp] at h
        simp at h
    · rw [containsSeg, Bool.or_eq_true]
      exact Or.inr (ih h)

theorem contains_mem_scanAll {m : List Char} (hm : date8At m = true) (hlen : m.length = 8) :
    ∀ {l : List Char}, containsSeg m l = true → m ∈ scanAll date8At 8 l := by
  intro l
  induction l with
  | nil =>
    intro h
    rw [containsSeg] at h
    have := startsWithSeg_nil h
    rw [this] at hlen
    simp at hlen
  | cons c t ih =>
    intro h
    rw [containsSeg, Bool.or_eq_true] at h
    rcases h with h | h
    · rcases startsWithSeg_append h with ⟨r, hr⟩
      have htake : (c :: t).take 8 = m := by
        have := startsWithSeg_eq_take h
        rw [hlen] at this
        exact this
      have hp : date8At (c :: t) = true := by
        rw [hr, date8At_append m r (by omega)]
        exact hm
      rw [scanAll, if_pos hp, htake]
      exact List.mem_append.mpr (Or.inl (List.mem_singleton.mpr rfl))
    · rw [scanAll]
      exact List.mem_append.mpr (Or.inr (ih h))

theorem mem_scanAll_props {m : List Char} :
    ∀ {l : List Char}, m ∈ scanAll date8At 8 l → date8At m = true ∧ m.length = 8 := by
  intro l
  induction l with
  | nil =>
    intro h
    rw [scanAll] at h
    simp [date8At] at h
  | cons c t ih =>
    intro h
    rw [scanAll] at h
    rcases List.mem_append.mp h with h | h
    · by_cases hp : date8At (c :: t) = true
      · rw [if_pos hp] at h
        simp only [List.mem_singleton] at h
        subst h
        exact date8At_take hp
      · rw [if_neg hp] at h
        simp at h
    · exact ih h

theorem foldlMax_spec (ds : List (List Char)) :
    ∀ (d : List Char),
    (ds.foldl (fun a b => if clLt a b then b else a) d = d ∨
      ds.foldl (fun a b => if clLt a b then b else a) d ∈ ds) ∧
    clLe d (ds.foldl (fun a b => if clLt a b then b else a) d) = true ∧
    ∀ x ∈ ds, clLe x (ds.foldl (fun a b => if clLt a b then b else a) d) = true := by
  induction ds with
  | nil =>
    intro d
    refine ⟨Or.inl rfl, by simp [clLe], by simp⟩
  | cons a ds ih =>
    intro d
    rw [List.foldl_cons]
    by_cases hda : clLt d a = true
    · rw [if_pos hda]
      rcases ih a with ⟨hmem, hle, hall⟩
      refine ⟨?_, ?_, ?_⟩
      · rcases hmem with h | h
        · exact Or.inr (by rw [h]; exact List.mem_cons_self _ _)
        · exact Or.inr (List.mem_cons_of_mem _ h)
      · exact clLe_trans (by simp [clLe, hda]) hle
      · intro x hx
        rcases List.mem_cons.mp hx with he | hx
        · rw [he]
          exact hle
        · exact hall x hx
    · rw [if_neg hda]
      rcases ih d with ⟨hmem, hle, hall⟩
      refine ⟨?_, ?_, ?_⟩
      · rcases hmem with h | h
        · exact Or.inl h
        · exact Or.inr (List.mem_cons_of_mem _ h)
      · exact hle
      · intro x hx
        rcases List.mem_cons.mp hx with he | hx
        · refine clLe_trans (b := d) ?_ hle
          rw [he]
          rcases clLt_trichotomy a d with h | h | h
          · simp [clLe, h]
          · simp [clLe, h]
          · exact absurd h (by simp [hda])
        · exact hall x hx

/-- C1 amended: the recency resolver compares only the 8-digit date part
(the first `20\d{6}` match of the basename), not the full timestamp: when
at least one file has a parseable date and each basename carries a single
date value, it returns exactly the files whose extracted date equals the
lexicographically maximal date, with ties on the date all returned even
when the time-of-day parts differ. -/
theorem c1_recent_publication_date_max (filepaths : List String)
    (hex : filepaths.filterMap (fun f => scanFirst date8At 8 (basenameC f.data)) ≠ [])
    (huniq : ∀ f ∈ filepaths, ∀ d1 ∈ scanAll date8At 8 (basenameC f.data),
      ∀ d2 ∈ scanAll date8At 8 (basenameC f.data), d1 = d2) :
    ∃ m, m ∈ filepaths.filterMap (fun f => scanFirst date8At 8 (basenameC f.data)) ∧
      (∀ d ∈ filepaths.filterMap (fun f => scanFirst date8At 8 (basenameC f.data)),
        clLe d m = true) ∧
      get_recent_publication filepaths =
        some (filepaths.filter (fun f => scanFirst date8At 8 (basenameC f.data) = some m)) := by
  rcases hpd : filepaths.filterMap (fun f => scanFirst date8At 8 (basenameC f.data)) with
    _ | ⟨d, ds⟩
  · exact absurd hpd hex
  · refine ⟨ds.foldl (fun a b => if clLt a b then b else a) d, ?_, ?_, ?_⟩
    · rw [hpd]
      rcases (foldlMax_spec ds d).1 with h | h
      · rw [h]; exact List.mem_cons_self _ _
      · exact List.mem_cons_of_mem _ h
    · intro x hx
      rw [hpd] at hx
      rcases List.mem_cons.mp hx with he | hx
      · rw [he]
        exact (foldlMax_spec ds d).2.1
      · exact (foldlMax_spec ds d).2.2 x hx
    · rw [get_recent_publication]
      simp only [hpd]
      refine congrArg some (List.filter_congr' ?_)
      intro f hf
      set m := ds.foldl (fun a b => if clLt a b then b else a) d with hm
      have hmmem : m ∈ filepaths.filterMap (fun f => scanFirst date8At 8 (basenameC f.data)) := by
        rw [hpd]
        rcases (foldlMax_spec ds d).1 with h | h
        · rw [hm, h]; exact List.mem_cons_self _ _
        · rw [hm]; exact List.mem_cons_of_mem _ h
      have hmprops : date8At m = true ∧ m.length = 8 := by
        rcases List.mem_filterMap.mp hmmem with ⟨f', _, hf'⟩
        rw [scanFirst] at hf'
        exact mem_scanAll_props (List.mem_of_mem_head? hf')
      by_cases hsf : scanFirst date8At 8 (basenameC f.data) = some m
      · have hmem : m ∈ scanAll date8At 8 (basenameC f.data) := by
          rw [scanFirst] at hsf
          exact List.mem_of_mem_head? hsf
        rw [mem_scanAll_contains hmem]
        simp [hsf]
      · have hcf : containsSeg m (basenameC f.data) = false := by
          by_contra hcc
          have hct : containsSeg m (basenameC f.data) = true := by
            cases hc2 : containsSeg m (basenameC f.data) with
            | false => exact absurd hc2 hcc
            | true => rfl
          have hmem : m ∈ scanAll date8At 8 (basenameC f.data) :=
            contains_mem_scanAll hmprops.1 hmprops.2 hct
          have hne : scanAll date8At 8 (basenameC f.data) ≠ [] := List.ne_nil_of_mem hmem
          rcases List.exists_mem_of_ne_nil _ hne with ⟨d0, hd0⟩
          have hhead : scanFirst date8At 8 (basenameC f.data) = some d0 ∨
              ∃ d1, scanFirst date8At 8 (basenameC f.data) = some d1 ∧
                d1 ∈ scanAll date8At 8 (basenameC f.data) := by
            rcases h0 : scanAll date8At 8 (basenameC f.data) with _ | ⟨x, xs⟩
            · exact absurd h0 hne
            · refine Or.inr ⟨x, by rw [scanFirst, h0]; rfl, ?_⟩
              exact List.mem_cons_self _ _
          rcases hhead with h | ⟨d1, hd1, hd1mem⟩
          · exact hsf (h.trans (congrArg some (huniq f hf d0
              (List.mem_of_mem_head? (by rw [scanFirst] at h; exact h)) m hmem)))
          · exact hsf (hd1.trans (congrArg some (huniq f hf d1 hd1mem m hmem)))
        rw [hcf]
        simp [hsf]

/-- C1 counterexample: two files of one dedup key whose timestamps share
the date but differ in time of day: the source returns both, whereas the
subset with the lexicographically maximal full timestamp contains only the
later file; the resolver therefore does not implement the claimed
full-timestamp maximum. -/
theorem c1_timestamp_tie_counterexample :
    get_recent_publication
        ["NEON.D01.ABBY.DP1.00001.001.tbl_one.2021-05.basic.20240101T000000Z.csv",
         "NEON.D01.ABBY.DP1.00001.001.tbl_one.2021-05.basic.20240101T120000Z.csv"] =
      some ["NEON.D01.ABBY.DP1.00001.001.tbl_one.2021-05.basic.20240101T000000Z.csv",
            "NEON.D01.ABBY.DP1.00001.001.tbl_one.2021-05.basic.20240101T120000Z.csv"] ∧
    lexMaxTimestampSubset
        ["NEON.D01.ABBY.DP1.00001.001.tbl_one.2021-05.basic.20240101T000000Z.csv",
         "NEON.D01.ABBY.DP1.00001.001.tbl_one.2021-05.basic.20240101T120000Z.csv"] =
      ["NEON.D01.ABBY.DP1.00001.001.tbl_one.2021-05.basic.20240101T120000Z.csv"] ∧
    get_recent_publication
        ["NEON.D01.ABBY.DP1.00001.001.tbl_one.2021-05.basic.20240101T000000Z.csv",
         "NEON.D01.ABBY.DP1.00001.001.tbl_one.2021-05.basic.20240101T120000Z.csv"] ≠
      some (lexMaxTimestampSubset
        ["NEON.D01.ABBY.DP1.00001.001.tbl_one.2021-05.basic.20240101T000000Z.csv",
         "NEON.D01.ABBY.DP1.00001.001.tbl_one.2021-05.basic.20240101T120000Z.csv"]) := by
  refine ⟨by decide, by decide, by decide⟩

/-- C1 amended witness: the resolver at two files with distinct dates. -/
theorem c1_recent_publication_date_max_witness :
    ∃ m, m ∈ (["dir/NEON.x.20230101T000000Z.csv",
               "dir/NEON.x.20240101T000000Z.csv"].filterMap
        (fun f => scanFirst date8At 8 (basenameC f.data))) ∧
      (∀ d ∈ (["dir/NEON.x.20230101T000000Z.csv",
               "dir/NEON.x.20240101T000000Z.csv"].filterMap
          (fun f => scanFirst date8At 8 (basenameC f.data))), clLe d m = true) ∧
      get_recent_publication ["dir/NEON.x.20230101T000000Z.csv",
          "dir/NEON.x.20240101T000000Z.csv"] =
        some (["dir/NEON.x.20230101T000000Z.csv",
               "dir/NEON.x.20240101T000000Z.csv"].filter
          (fun f => scanFirst date8At 8 (basenameC f.data) = some m)) :=
  c1_recent_publication_date_max
    ["dir/NEON.x.20230101T000000Z.csv", "dir/NEON.x.20240101T000000Z.csv"]
    (by decide) (by decide)

/-! ### Claim C10 -/

/-- Row-rectangularity of a table: every row has one cell per column. -/
def rect (t : PTable) : Prop := ∀ r ∈ t.rows, r.length = t.cols.length

instance (t : PTable) : Decidable (rect t) := by
  unfold rect
  infer_instance

/-- Value of one column after its `cast_table_neon` visit, as a function of
the column values before the visit. -/
def colTransform (numCast : String → List String → Option (List String))
    (dateConv : List String → List String) (vdt : List (String × String))
    (name : String) (col : List String) : List String :=
  match alookup name vdt with
  | none => col
  | some dt =>
    if dt = "Float64" ∨ dt = "Int64" then
      match numCast dt col with
      | some vals => vals
      | none => col
    else if dt = "datetime64[ns, UTC]" ∧ ¬ name = "publicationDate" then dateConv col
    else col

theorem getD_set_ne_str (l : List String) (i : Nat) (v : String) (j : Nat) (h : i ≠ j) :
    (l.set i v).getD j "" = l.getD j "" := by
  rw [List.getD, List.getD, List.get?_set_ne _ _ h]

theorem getD_set_self_str (l : List String) (i : Nat) (v : String) (h : i < l.length) :
    (l.set i v).getD i "" = v := by
  rw [List.getD, List.get?_set_eq_of_lt v h]
  rfl

theorem getColAt_length (t : PTable) (i : Nat) : (getColAt t i).length = t.rows.length := by
  rw [getColAt]
  exact List.length_map _ _

theorem getColAt_setColAt_ne (t : PTable) (i : Nat) (vs : List String) (j : Nat)
    (hij : i ≠ j) (hlen : vs.length = t.rows.length) :
    getColAt (setColAt t i vs) j = getColAt t j := by
  rw [getColAt, getColAt, setColAt]
  rcases t with ⟨cols, rows⟩
  dsimp only at hlen ⊢
  clear cols
  induction rows generalizing vs with
  | nil => rfl
  | cons r rows ih =>
    cases vs with
    | nil => simp at hlen
    | cons v vs =>
      simp only [List.zipWith_cons_cons, List.map_cons]
      rw [getD_set_ne_str _ _ _ _ hij, ih vs (by simpa using hlen)]

theorem getColAt_setColAt_self (t : PTable) (i : Nat) (vs : List String)
    (hlen : vs.length = t.rows.length) (hall : ∀ r ∈ t.rows, i < r.length) :
    getColAt (setColAt t i vs) i = vs := by
  rw [getColAt, setColAt]
  rcases t with ⟨cols, rows⟩
  dsimp only at hlen hall ⊢
  clear cols
  induction rows generalizing vs with
  | nil =>
    cases vs with
    | nil => rfl
    | cons v vs => simp at hlen
  | cons r rows ih =>
    cases vs with
    | nil => simp at hlen
    | cons v vs =>
      simp only [List.zipWith_cons_cons, List.map_cons]
      rw [getD_set_self_str _ _ _ (hall r (List.mem_cons_self _ _)),
        ih vs (by simpa using hlen) (fun x hx => hall x (List.mem_cons_of_mem _ hx))]

theorem mem_zipWith_set {rows : List (List String)} {i : Nat} {r' : List String} :
    ∀ {vs : List String}, r' ∈ rows.zipWith (fun r v => r.set i v) vs →
      ∃ r ∈ rows, r'.length = r.length := by
  induction rows with
  | nil => intro vs h; simp at h
  | cons r rows ih =>
    intro vs h
    cases vs with
    | nil => simp at h
    | cons v vs =>
      rw [List.zipWith_cons_cons] at h
      rcases List.mem_cons.mp h with he | h
      · exact ⟨r, List.mem_cons_self _ _, by rw [he, List.length_set]⟩
      · rcases ih h with ⟨r0, hr0, hl⟩
        exact ⟨r0, List.mem_cons_of_mem _ hr0, hl⟩

theorem rect_setColAt {t : PTable} {i : Nat} {vs : List String} (hrect : rect t) :
    rect (setColAt t i vs) := by
  intro r' hr'
  rw [setColAt] at hr'
  dsimp only at hr'
  rcases mem_zipWith_set hr' with ⟨r, hr, hl⟩
  rw [setColAt]
  exact hl.trans (hrect r hr)

theorem castStep_cols (nc : String → List String → Option (List String))
    (dc : List String → List String) (vdt : List (String × String))
    (names : List String) (ct : PTable) (i : Nat) :
    (castStep nc dc vdt names ct i).cols = ct.cols := by
  rw [castStep]
  cases alookup (names.getD i "") vdt with
  | none => rfl
  | some dt =>
    dsimp only
    by_cases h1 : dt = "Float64" ∨ dt = "Int64"
    · rw [if_pos h1]
      cases nc dt (getColAt ct i) <;> rfl
    · rw [if_neg h1]
      by_cases h2 : dt = "datetime64[ns, UTC]" ∧ ¬ names.getD i "" = "publicationDate"
      · rw [if_pos h2]; rfl
      · rw [if_neg h2]

theorem rect_castStep {nc : String → List String → Option (List String)}
    {dc : List String → List String} {vdt : List (String × String)}
    {names : List String} {ct : PTable} {i : Nat} (hrect : rect ct) :
    rect (castStep nc dc vdt names ct i) := by
  intro r' hr'
  rw [castStep_cols]
  rw [castStep] at hr'
  cases hdt : alookup (names.getD i "") vdt with
  | none => rw [hdt] at hr'; exact hrect r' hr'
  | some dt =>
    rw [hdt] at hr'
    dsimp only at hr'
    by_cases h1 : dt = "Float64" ∨ dt = "Int64"
    · rw [if_pos h1] at hr'
      cases hnc : nc dt (getColAt ct i) with
      | none => rw [hnc] at hr'; exact hrect r' hr'
      | some vals =>
        rw [hnc] at hr'
        dsimp only [setColAt] at hr'
        rcases mem_zipWith_set hr' with ⟨r, hr, hl⟩
        exact hl.trans (hrect r hr)
    · rw [if_neg h1] at hr'
      by_cases h2 : dt = "datetime64[ns, UTC]" ∧ ¬ names.getD i "" = "publicationDate"
      · rw [if_pos h2] at hr'
        dsimp only [setColAt] at hr'
        rcases mem_zipWith_set hr' with ⟨r, hr, hl⟩
        exact hl.trans (hrect r hr)
      · rw [if_neg h2] at hr'
        exact hrect r' hr'

theorem getColAt_castStep_ne {nc : String → List String → Option (List String)}
    {dc : List String → List String} {vdt : List (String × String)}
    {names : List String} (ct : PTable) (i j : Nat)
    (hnum : ∀ ty col r, nc ty col = some r → r.length = col.length)
    (hdc : ∀ col, (dc col).length = col.length)
    (hij : i ≠ j) :
    getColAt (castStep nc dc vdt names ct i) j = getColAt ct j := by
  rw [castStep]
  cases alookup (names.getD i "") vdt with
  | none => rfl
  | some dt =>
    dsimp only
    by_cases h1 : dt = "Float64" ∨ dt = "Int64"
    · rw [if_pos h1]
      cases hnc : nc dt (getColAt ct i) with
      | none => rfl
      | some vals =>
        exact getColAt_setColAt_ne ct i vals j hij
          ((hnum dt _ vals hnc).trans (getColAt_length ct i))
    · rw [if_neg h1]
      by_cases h2 : dt = "datetime64[ns, UTC]" ∧ ¬ names.getD i "" = "publicationDate"
      · rw [if_pos h2]
        exact getColAt_setColAt_ne ct i _ j hij ((hdc _).trans (getColAt_length ct i))
      · rw [if_neg h2]

theorem getColAt_castStep_self {nc : String → List String → Option (List String)}
    {dc : List String → List String} {vdt : List (String × String)}
    {names : List String} (ct : PTable) (i : Nat)
    (hnum : ∀ ty col r, nc ty col = some r → r.length = col.length)
    (hdc : ∀ col, (dc col).length = col.length)
    (hrect : rect ct) (hcols : ct.cols = names) (hi : i < names.length) :
    getColAt (castStep nc dc vdt names ct i) i =
      colTransform nc dc vdt (names.getD i "") (getColAt ct i) := by
  have hall : ∀ r ∈ ct.rows, i < r.length := by
    intro r hr
    rw [hrect r hr, hcols]
    exact hi
  rw [castStep, colTransform]
  cases alookup (names.getD i "") vdt with
  | none => rfl
  | some dt =>
    dsimp only
    by_cases h1 : dt = "Float64" ∨ dt = "Int64"
    · rw [if_pos h1, if_pos h1]
      cases hnc : nc dt (getColAt ct i) with
      | none => rfl
      | some vals =>
        exact getColAt_setColAt_self ct i vals
          ((hnum dt _ vals hnc).trans (getColAt_length ct i)) hall
    · rw [if_neg h1, if_neg h1]
      by_cases h2 : dt = "datetime64[ns, UTC]" ∧ ¬ names.getD i "" = "publicationDate"
      · rw [if_pos h2, if_pos h2]
        exact getColAt_setColAt_self ct i _ ((hdc _).trans (getColAt_length ct i)) hall
      · rw [if_neg h2, if_neg h2]

theorem castFold_cols (nc : String → List String → Option (List String))
    (dc : List String → List String) (vdt : List (String × String))
    (names : List String) :
    ∀ (l : List Nat) (t : PTable), (l.foldl (castStep nc dc vdt names) t).cols = t.cols := by
  intro l
  induction l with
  | nil => intro t; rfl
  | cons i l ih =>
    intro t
    rw [List.foldl_cons, ih, castStep_cols]

theorem getColAt_castFold {nc : String → List String → Option (List String)}
    {dc : List String → List String} {vdt : List (String × String)}
    {names : List String}
    (hnum : ∀ ty col r, nc ty col = some r → r.length = col.length)
    (hdc : ∀ col, (dc col).length = col.length) :
    ∀ (l : List Nat) (t : PTable), rect t → t.cols = names → l.Nodup →
    ∀ j, j < names.length →
    getColAt (l.foldl (castStep nc dc vdt names) t) j =
      (if j ∈ l then colTransform nc dc vdt (names.getD j "") (getColAt t j)
        else getColAt t j) := by
  intro l
  induction l with
  | nil =>
    intro t _ _ _ j _
    simp
  | cons i l ih =>
    intro t hrect hcols hnd j hj
    rcases List.nodup_cons.mp hnd with ⟨hni, hnd'⟩
    rw [List.foldl_cons]
    have hrect' : rect (castStep nc dc vdt names t i) := rect_castStep hrect
    have hcols' : (castStep nc dc vdt names t i).cols = names := by
      rw [castStep_cols, hcols]
    by_cases hji : j = i
    · subst hji
      rw [ih _ hrect' hcols' hnd' j hj, if_neg hni, if_pos (List.mem_cons_self _ _)]
      exact getColAt_castStep_self t j hnum hdc hrect hcols hj
    · rw [ih _ hrect' hcols' hnd' j hj,
        getColAt_castStep_ne t i j hnum hdc (fun hc => hji hc.symm)]
      by_cases hjl : j ∈ l
      · rw [if_pos hjl, if_pos (List.mem_cons_of_mem _ hjl)]
      · rw [if_neg hjl, if_neg (fun hc => by
          rcases List.mem_cons.mp hc with hc | hc
          · exact hji hc
          · exact hjl hc)]

theorem cast_table_neon_cols {nc : String → List String → Option (List String)}
    {dc : List String → List String} {data_table out : PTable}
    {var_table : List FieldRow}
    (hout : cast_table_neon nc dc data_table var_table = some out) :
    out.cols = data_table.cols := by
  rw [cast_table_neon] at hout
  cases hv : get_variables_pandas var_table with
  | none => rw [hv] at hout; exact absurd hout (by simp)
  | some vdt =>
    rw [hv] at hout
    have := Option.some.inj hout
    rw [← this, castFold_cols]

theorem cast_table_neon_col {nc : String → List String → Option (List String)}
    {dc : List String → List String} {data_table out : PTable}
    {var_table : List FieldRow} {vdt : List (String × String)}
    (hnum : ∀ ty col r, nc ty col = some r → r.length = col.length)
    (hdc : ∀ col, (dc col).length = col.length)
    (hrect : rect data_table)
    (hv : get_variables_pandas var_table = some vdt)
    (hout : cast_table_neon nc dc data_table var_table = some out)
    (j : Nat) (hj : j < data_table.cols.length) :
    getColAt out j =
      colTransform nc dc vdt (data_table.cols.getD j "") (getColAt data_table j) := by
  rw [cast_table_neon, hv] at hout
  have hfold := Option.some.inj hout
  rw [← hfold, getColAt_castFold hnum hdc (List.range data_table.cols.length) data_table
    hrect rfl (List.nodup_range _) j hj, if_pos (List.mem_range.mpr hj)]

theorem idxOfCol_spec {c : String} :
    ∀ {l : List String} {i : Nat}, idxOfCol c l = some i → i < l.length ∧ l.getD i "" = c := by
  intro l
  induction l with
  | nil => intro i h; simp [idxOfCol] at h
  | cons a l ih =>
    intro i h
    rw [idxOfCol] at h
    by_cases ha : a = c
    · rw [if_pos ha] at h
      have : i = 0 := (Option.some.inj h).symm
      subst this
      exact ⟨Nat.succ_pos _, ha⟩
    · rw [if_neg ha] at h
      cases hrec : idxOfCol c l with
      | none => rw [hrec] at h; simp at h
      | some i0 =>
        rw [hrec] at h
        have : i = i0 + 1 := (Option.some.inj h).symm
        subst this
        rcases ih hrec with ⟨hlt, hget⟩
        exact ⟨by simpa using Nat.succ_lt_succ hlt, by simpa using hget⟩

/-- C10: `cast_table_neon` never converts the `publicationDate` column
even when the variables table declares it as dateTime: its values are
returned unchanged, while every other dateTime-declared column of the data
table is passed to the date converter. -/
theorem c10_cast_preserves_publication_date
    (nc : String → List String → Option (List String))
    (dc : List String → List String) (data_table out : PTable)
    (var_table : List FieldRow) (vdt : List (String × String))
    (hnum : ∀ ty col r, nc ty col = some r → r.length = col.length)
    (hdc : ∀ col, (dc col).length = col.length)
    (hrect : rect data_table)
    (hv : get_variables_pandas var_table = some vdt)
    (hpd : alookup "publicationDate" vdt = some "datetime64[ns, UTC]")
    (hout : cast_table_neon nc dc data_table var_table = some out) :
    getColByName out "publicationDate" = getColByName data_table "publicationDate" ∧
    (∀ j, j < data_table.cols.length → ¬ data_table.cols.getD j "" = "publicationDate" →
      alookup (data_table.cols.getD j "") vdt = some "datetime64[ns, UTC]" →
      getColAt out j = dc (getColAt data_table j)) := by
  constructor
  · rw [getColByName, getColByName, cast_table_neon_cols hout]
    cases hidx : idxOfCol "publicationDate" data_table.cols with
    | none => rfl
    | some i0 =>
      rcases idxOfCol_spec hidx with ⟨hlt, hname⟩
      dsimp only [Option.map]
      refine congrArg some ?_
      rw [cast_table_neon_col hnum hdc hrect hv hout i0 hlt, hname, colTransform, hpd]
      dsimp only
      rw [if_neg (by decide),
        if_neg (fun hc : _ ∧ ¬ ("publicationDate" : String) = "publicationDate" => hc.2 rfl)]
  · intro j hj hnotpd hdt
    rw [cast_table_neon_col hnum hdc hrect hv hout j hj, colTransform, hdt]
    dsimp only
    rw [if_neg (by decide), if_pos ⟨rfl, hnotpd⟩]

/-- C10 witness: a concrete cast of a table whose variables declare both
columns as dateTime leaves `publicationDate` untouched and converts the
other column. -/
theorem c10_cast_preserves_publication_date_witness :
    getColByName
        { cols := ["publicationDate", "collectDate"],
          rows := [["20240101T000000Z", "1970-01-01T00:00:00+00:00"]] }
        "publicationDate" =
      getColByName
        { cols := ["publicationDate", "collectDate"],
          rows := [["20240101T000000Z", "2021-05-01"]] }
        "publicationDate" ∧
    getColAt
        { cols := ["publicationDate", "collectDate"],
          rows := [["20240101T000000Z", "1970-01-01T00:00:00+00:00"]] } 1 =
      ["1970-01-01T00:00:00+00:00"] := by
  have h := c10_cast_preserves_publication_date
    (fun _ _ => none)
    (fun col => col.map (fun _ => "1970-01-01T00:00:00+00:00"))
    { cols := ["publicationDate", "collectDate"],
      rows := [["20240101T000000Z", "2021-05-01"]] }
    { cols := ["publicationDate", "collectDate"],
      rows := [["20240101T000000Z", "1970-01-01T00:00:00+00:00"]] }
    [{ table := "tbl", fieldName := "publicationDate", dataType := "dateTime",
       pubFormat := "yyyy-MM-dd\x27T\x27HH:mm:ss\x27Z\x27", downloadPkg := "basic" },
     { table := "tbl", fieldName := "collectDate", dataType := "dateTime",
       pubFormat := "yyyy-MM-dd", downloadPkg := "basic" }]
    [("publicationDate", "datetime64[ns, UTC]"), ("collectDate", "datetime64[ns, UTC]")]
    (fun _ _ r hr => nomatch hr)
    (fun col => by rw [List.length_map])
    (by decide) (by decide) (by decide) (by decide)
  exact ⟨h.1, (h.2 1 (by decide) (by decide) (by decide)).trans (by decide)⟩

/-! ### Claim C4 -/

theorem tablesLoop_append (g : String → Except JobErr (Option TableOut)) :
    ∀ (l1 : List String) {l2 : List String} {r1 r2 : List TableOut},
    tablesLoop g l1 = .ok r1 → tablesLoop g l2 = .ok r2 →
    tablesLoop g (l1 ++ l2) = .ok (r1 ++ r2) := by
  intro l1
  induction l1 with
  | nil =>
    intro l2 r1 r2 h1 h2
    rw [tablesLoop] at h1
    have hr : r1 = [] := (Except.ok.inj h1).symm
    subst hr
    simpa using h2
  | cons t ts ih =>
    intro l2 r1 r2 h1 h2
    rw [List.cons_append, tablesLoop]
    rw [tablesLoop] at h1
    cases hgt : g t with
    | error e => rw [hgt] at h1; exact absurd h1 (by simp)
    | ok x =>
      rw [hgt] at h1
      cases x with
      | none => exact ih h1 h2
      | some a =>
        cases hts : tablesLoop g ts with
        | error e => rw [hts] at h1; exact absurd h1 (by simp [Except.map])
        | ok r1' =>
          rw [hts] at h1
          have hr1 : r1 = a :: r1' := by
            simpa [Except.map] using h1.symm
          rw [ih hts h2, hr1]
          rfl

/-- C4: when typed ingestion fails and the all-string retry succeeds, the
per-table assembly returns the recast string table with the
schema-mismatch warning naming the table, rather than erroring; any other
table of the job is processed independently of this outcome; and inside
the recast, a numeric column whose cast oracle fails is left as its string
input. -/
theorem c4_string_fallback_recovery
    (oc : Oracles) (v spInternal : List FieldRow) (package dpnum : String)
    (filepaths : List String) (ttype j : String) (sch : Schema)
    (pkgvar : List FieldRow) (tps : List String)
    (tb ct : PTable) (pr : PTable × List String) (t3 t4 : PTable)
    (hphase : schemaPhase v spInternal package j = (some sch, [], pkgvar))
    (hrec : recencyPhase ttype j (tablePathsOf filepaths j) = .ok tps)
    (htyped : oc.ingest (some sch) false tps = none)
    (hstring : oc.ingest (string_schema pkgvar) true tps = some tb)
    (hcast : cast_table_neon oc.numCast oc.dateConv tb pkgvar = some ct)
    (hpub : pubRelPhase ct j = .ok pr)
    (hprov : provenancePhase pr.1 ttype j = .ok t3)
    (hpost : postPhase t3 j = .ok t4) :
    stackOneTable oc v spInternal package dpnum filepaths ttype j =
      .ok (some { key := outName j dpnum,
                  tab := t4,
                  logs := ["Table " ++ j ++ " schema did not match data; all variable types set to string. Data type casting will be attempted after stacking step."],
                  rels := pr.2 }) ∧
    (∀ (g : String → Except JobErr (Option TableOut)) (ts1 ts2 : List String)
        (r1 r2 : List TableOut) (o : TableOut),
      tablesLoop g ts1 = .ok r1 → tablesLoop g ts2 = .ok r2 → g j = .ok (some o) →
      tablesLoop g (ts1 ++ j :: ts2) = .ok (r1 ++ o :: r2)) ∧
    (∀ (vdt : List (String × String)) (i : Nat) (dt : String),
      get_variables_pandas pkgvar = some vdt →
      rect tb →
      (∀ ty col r, oc.numCast ty col = some r → r.length = col.length) →
      (∀ col, (oc.dateConv col).length = col.length) →
      i < tb.cols.length →
      alookup (tb.cols.getD i "") vdt = some dt →
      (dt = "Float64" ∨ dt = "Int64") →
      oc.numCast dt (getColAt tb i) = none →
      getColAt ct i = getColAt tb i) := by
  refine ⟨?_, ?_, ?_⟩
  · rw [stackOneTable]
    simp only [hphase, hrec, ingestPhase, htyped, hstring, hcast, hpub, hprov, hpost,
      Except.bind, bind, pure, Except.pure, List.nil_append, List.append_nil, if_true]
  · intro g ts1 ts2 r1 r2 o h1 h2 hgj
    have hcons : tablesLoop g (j :: ts2) = .ok (o :: r2) := by
      rw [tablesLoop, hgj, h2]
      rfl
    exact tablesLoop_append g ts1 h1 hcons
  · intro vdt i dt hv hrect hnum hdc hi hdt hnumeric hfail
    rw [cast_table_neon_col hnum hdc hrect hv hcast i hi, colTransform, hdt]
    dsimp only
    rw [if_pos hnumeric, hfail]

/-! ### Concrete job fixtures used by the remaining witnesses -/

/-- Path of a well-formed site-date data file, inside its release
directory. -/
def wpath1 : String :=
  "NEON.D01.ABBY.DP1.00001.001.2021-05.basic.20240101T000000Z.RELEASE-2024/NEON.D01.ABBY.DP1.00001.001.tbl_one.2021-05.basic.20240101T000000Z.csv"

/-- Path of a site-all-shaped file with no parseable publication date. -/
def wpath2 : String := "NEON.D01.ABBY.DP1.00001.001.tbl_two.a.b.basic.csv"

/-- Path of a variables file. -/
def wvarpath : String := "NEON.D01.ABBY.DP1.00001.001.variables.20240101T000000Z.csv"

/-- Variables rows of the concrete job. -/
def wvars : List FieldRow :=
  [{ table := "tbl_one", fieldName := "siteID", dataType := "string",
     pubFormat := "", downloadPkg := "basic" },
   { table := "tbl_one", fieldName := "collectDate", dataType := "dateTime",
     pubFormat := "yyyy-MM-dd", downloadPkg := "basic" },
   { table := "tbl_one", fieldName := "val", dataType := "real",
     pubFormat := "", downloadPkg := "basic" }]

/-- Ingested buffer of the concrete job's data file. -/
def wtb : PTable :=
  { cols := ["siteID", "collectDate", "val", "__filename"],
    rows := [["ABBY", "2021-05-01", "x1", wpath1]] }

/-- Concrete oracles: the first ingestion attempt fails, the string retry
returns the buffer; the numeric cast always fails; dates convert to
themselves; metadata fetches are unavailable. -/
def woc : Oracles :=
  { ingest := fun _ retry _ => if retry then some wtb else none,
    numCast := fun _ _ => none,
    dateConv := fun col => col,
    readVars := fun _ => wvars,
    readTab := fun _ => { cols := [], rows := [] },
    readRme := fun _ => none,
    frameStack := fun _ => [],
    issueLog := none,
    citation := fun _ => none }

/-- Concrete resource rows (none of the special tables appear). -/
def wrv : ResourceVars := { srfVars := [], spVars := [], spInternal := [] }

/-- C4 witness: the concrete table whose typed ingestion fails stacks via
the all-string retry, with the mismatch warning, the release column, and
the failed numeric cast leaving `val` as a string. -/
theorem c4_string_fallback_recovery_witness :
    stackOneTable woc wvars [] "basic" "00001" [wpath1] "site-date" "tbl_one" =
      .ok (some { key := "tbl_one",
                  tab := { cols := ["siteID", "collectDate", "val", "publicationDate", "release"],
                           rows := [["ABBY", "2021-05-01", "x1", "20240101T000000Z", "RELEASE-2024"]] },
                  logs := ["Table tbl_one schema did not match data; all variable types set to string. Data type casting will be attempted after stacking step."],
                  rels := ["RELEASE-2024"] }) := by
  have h := c4_string_fallback_recovery woc wvars [] "basic" "00001" [wpath1]
    "site-date" "tbl_one"
    [("siteID", PaType.string), ("collectDate", PaType.date64), ("val", PaType.float64)]
    wvars [wpath1] wtb wtb
    ({ cols := ["siteID", "collectDate", "val", "__filename", "publicationDate", "release"],
       rows := [["ABBY", "2021-05-01", "x1", wpath1, "20240101T000000Z", "RELEASE-2024"]] },
     ["RELEASE-2024"])
    { cols := ["siteID", "collectDate", "val", "__filename", "publicationDate", "release"],
      rows := [["ABBY", "2021-05-01", "x1", wpath1, "20240101T000000Z", "RELEASE-2024"]] }
    { cols := ["siteID", "collectDate", "val", "publicationDate", "release"],
      rows := [["ABBY", "2021-05-01", "x1", "20240101T000000Z", "RELEASE-2024"]] }
    (by decide) (by decide) (by decide) (by decide) (by decide) (by decide) (by decide)
    (by decide)
  exact h.1

/-! ### Claim C6 -/

theorem get_variables_none_iff (v : List FieldRow) : get_variables v = none ↔ v = [] := by
  constructor
  · intro h
    cases v with
    | nil => rfl
    | cons r t =>
      rw [get_variables_eq_map] at h
      exact absurd h (by simp)
  · rintro rfl
    rfl

/-- Oracles for the inferred-ingestion witness: only the schema-less first
attempt succeeds. -/
def woc2 : Oracles :=
  { woc with ingest := fun sch retry _ => if sch = none ∧ retry = false then some wtb else none }

/-- C6 amended: for a table whose variables rows are missing while a
variables file is present, the assembler emits the warning naming the
table, ingests without a schema (types inferred), and stacks the table —
the empty schema phase occurs exactly when the filtered variables rows are
empty.  (The claim's other case — the variables file absent from the
download — instead aborts the whole job; see the counterexample.) -/
theorem c6_missing_schema_fallback
    (oc : Oracles) (v spInternal : List FieldRow) (package dpnum : String)
    (filepaths : List String) (ttype j : String) (pkgvar : List FieldRow)
    (tps : List String) (tb : PTable) (pr : PTable × List String) (t3 t4 : PTable)
    (hphase : schemaPhase v spInternal package j =
      (none, ["Variables file not found for table " ++ j ++ ". Data types will be inferred if possible."], pkgvar))
    (hrec : recencyPhase ttype j (tablePathsOf filepaths j) = .ok tps)
    (hinf : oc.ingest none false tps = some tb)
    (hpub : pubRelPhase tb j = .ok pr)
    (hprov : provenancePhase pr.1 ttype j = .ok t3)
    (hpost : postPhase t3 j = .ok t4) :
    pkgvar = [] ∧
    stackOneTable oc v spInternal package dpnum filepaths ttype j =
      .ok (some { key := outName j dpnum,
                  tab := t4,
                  logs := ["Variables file not found for table " ++ j ++ ". Data types will be inferred if possible."],
                  rels := pr.2 }) := by
  constructor
  · rw [schemaPhase] at hphase
    cases hgv : get_variables (if package = "basic" then
        (if j = "sensor_positions" then spInternal
          else if v.filter (fun r => r.table = j) = [] then
            v.filter (fun r => r.table = j ++ "_pub")
          else v.filter (fun r => r.table = j)).filter (fun r => r.downloadPkg = "basic")
      else if j = "sensor_positions" then spInternal
        else if v.filter (fun r => r.table = j) = [] then
          v.filter (fun r => r.table = j ++ "_pub")
        else v.filter (fun r => r.table = j)) with
    | none =>
      rw [hgv] at hphase
      have hpkg := congrArg (fun p => p.2.2) hphase
      dsimp only at hpkg
      rw [← hpkg]
      exact (get_variables_none_iff _).mp hgv
    | some s =>
      rw [hgv] at hphase
      have := congrArg (fun p => p.1) hphase
      simp at this
  · rw [stackOneTable]
    simp only [hphase, hrec, ingestPhase, hinf, hpub, hprov, hpost,
      Except.bind, bind, pure, Except.pure, List.nil_append, List.append_nil,
      Bool.false_eq_true, if_false]

set_option maxRecDepth 4000 in
/-- C6 counterexample: the identical job with the variables file absent
from the download: the stacking call aborts with the KeyError at the
variables lookup instead of falling back to schema-less ingestion. -/
theorem c6_absent_variables_aborts_counterexample :
    stack_data_files_parallel woc wrv [wpath1] [] "basic" "DP1.00001.001" =
      .error JobErr.varsKey := by
  decide

/-- C6 amended witness: the inferred-ingestion fallback at a concrete
table with no variables rows. -/
theorem c6_missing_schema_fallback_witness :
    ([] : List FieldRow) = [] ∧
    stackOneTable woc2 [] [] "basic" "00001" [wpath1] "site-date" "tbl_one" =
      .ok (some { key := "tbl_one",
                  tab := { cols := ["siteID", "collectDate", "val", "publicationDate", "release"],
                           rows := [["ABBY", "2021-05-01", "x1", "20240101T000000Z", "RELEASE-2024"]] },
                  logs := ["Variables file not found for table tbl_one. Data types will be inferred if possible."],
                  rels := ["RELEASE-2024"] }) :=
  c6_missing_schema_fallback woc2 [] [] "basic" "00001" [wpath1] "site-date" "tbl_one"
    [] [wpath1] wtb
    ({ cols := ["siteID", "collectDate", "val", "__filename", "publicationDate", "release"],
       rows := [["ABBY", "2021-05-01", "x1", wpath1, "20240101T000000Z", "RELEASE-2024"]] },
     ["RELEASE-2024"])
    { cols := ["siteID", "collectDate", "val", "__filename", "publicationDate", "release"],
      rows := [["ABBY", "2021-05-01", "x1", wpath1, "20240101T000000Z", "RELEASE-2024"]] }
    { cols := ["siteID", "collectDate", "val", "publicationDate", "release"],
      rows := [["ABBY", "2021-05-01", "x1", "20240101T000000Z", "RELEASE-2024"]] }
    (by decide) (by decide) (by decide) (by decide) (by decide) (by decide)

/-! ### Claim C5 -/

theorem exceptMapM_error_of_mem (f : String → Except JobErr String) :
    ∀ (l : List String) {x : String} {e : JobErr}, x ∈ l → f x = .error e →
      ∃ e', exceptMapM f l = .error e' := by
  intro l
  induction l with
  | nil => intro x e h _; simp at h
  | cons a t ih =>
    intro x e hx hfx
    rw [exceptMapM]
    cases hfa : f a with
    | error e0 => exact ⟨e0, rfl⟩
    | ok b =>
      rcases List.mem_cons.mp hx with he | hx'
      · rw [he, hfa] at hfx
        exact absurd hfx (by simp)
      · rcases ih hx' hfx with ⟨e', hmap⟩
        rw [hmap]
        exact ⟨e', rfl⟩

theorem tablesLoop_error_of_mem (g : String → Except JobErr (Option TableOut)) :
    ∀ (l : List String) {x : String} {e : JobErr}, x ∈ l → g x = .error e →
      ∃ e', tablesLoop g l = .error e' := by
  intro l
  induction l with
  | nil => intro x e h _; simp at h
  | cons t ts ih =>
    intro x e hx hgx
    rw [tablesLoop]
    cases hgt : g t with
    | error e0 => exact ⟨e0, rfl⟩
    | ok o =>
      have hx' : x ∈ ts := by
        rcases List.mem_cons.mp hx with he | hx'
        · rw [he, hgt] at hgx
          exact absurd hgx (by simp)
        · exact hx'
      rcases ih hx' hgx with ⟨e', hloop⟩
      cases o with
      | none => exact ⟨e', hloop⟩
      | some a =>
        rw [hloop]
        exact ⟨e', rfl⟩

/-- C5 corrected: per-table failures are not isolated.  An unresolvable
recency group (a site-all site whose files carry no parseable date) makes
the per-table assembly raise, and any per-table exception aborts the whole
stacking job: no other table is returned. -/
theorem c5_unresolvable_recency_aborts_job
    (oc : Oracles) (rv : ResourceVars) (filepaths txtpaths : List String)
    (package dpid dpnum : String) (tt : List (String × String)) (v : List FieldRow)
    (ve ve1 ve2 ve3 : List (String × PTable)) (j : String) (e : JobErr)
    (hdpn : String.mk ((dpid.data.drop 4).take 5) = dpnum)
    (hframe : frameDpids.contains dpid = false)
    (hne : filepaths ≠ [])
    (htt : jobTables (filepaths.map basenameS) filepaths = .ok tt)
    (hvars : jobVariables oc rv filepaths dpnum = .ok (some v, ve))
    (hval : jobValidation oc filepaths dpnum = .ok ve1)
    (hcc : jobCatCodes oc filepaths dpnum = .ok ve2)
    (hrme : jobReadme oc txtpaths dpnum = .ok ve3)
    (hj : j ∈ tt.map Prod.fst)
    (herr : stackOneTable oc v rv.spInternal package dpnum filepaths
      ((alookup j tt).getD "") j = .error e) :
    (∃ e', stack_data_files_parallel oc rv filepaths txtpaths package dpid = .error e') ∧
    (∀ (ty j' k : String) (sites : List String),
      ty = "site-all" →
      find_sites (tablePathsOf filepaths j') = some sites →
      k ∈ sites →
      get_recent_publication ((tablePathsOf filepaths j').filter (fun f => shas k f)) = none →
      ∃ e2, stackOneTable oc v rv.spInternal package dpnum filepaths ty j' = .error e2) := by
  constructor
  · rcases tablesLoop_error_of_mem
      (fun j' => stackOneTable oc v rv.spInternal package dpnum filepaths
        ((alookup j' tt).getD "") j')
      (tt.map Prod.fst) hj herr with ⟨e', hloop⟩
    refine ⟨e', ?_⟩
    rw [stack_data_files_parallel]
    simp only [hframe, Bool.false_eq_true, false_and, if_false, hdpn, if_neg hne,
      htt, hvars, hval, hcc, hrme, hloop, Except.bind, bind, pure, Except.pure]
  · intro ty j' k sites hty hsites hk hnone
    have hfk : recentHead ((tablePathsOf filepaths j').filter (fun f => shas k f))
        (.recency j') = .error (.recency j') := by
      rw [recentHead, hnone]
    rcases exceptMapM_error_of_mem
      (fun k0 => recentHead ((tablePathsOf filepaths j').filter (fun f => shas k0 f))
        (.recency j')) sites hk hfk with ⟨e2, hmap⟩
    refine ⟨e2, ?_⟩
    rw [stackOneTable]
    have hrp : recencyPhase ty j' (tablePathsOf filepaths j') = .error e2 := by
      rw [recencyPhase, if_neg (by rw [hty]; decide), if_pos hty, hsites]
      exact hmap
    simp only [hrp, Except.bind, bind]

set_option maxRecDepth 8000 in
/-- C5 counterexample: a job with a healthy site-date table and a site-all
table whose only file has no parseable publication stamp: the whole call
raises the recency error and returns nothing — the healthy table is not
assembled, so the job result is not the union of the tables that
succeeded. -/
theorem c5_recency_aborts_whole_job_counterexample :
    stack_data_files_parallel woc wrv [wvarpath, wpath1, wpath2] [] "basic" "DP1.00001.001" =
      .error (JobErr.recency "tbl_two") := by
  decide

set_option maxRecDepth 8000 in
/-- C5 amended witness: the concrete job of the counterexample, through
the amended theorem. -/
theorem c5_unresolvable_recency_aborts_job_witness :
    (∃ e', stack_data_files_parallel woc wrv [wvarpath, wpath1, wpath2] [] "basic"
      "DP1.00001.001" = .error e') ∧
    (∀ (ty j' k : String) (sites : List String),
      ty = "site-all" →
      find_sites (tablePathsOf [wvarpath, wpath1, wpath2] j') = some sites →
      k ∈ sites →
      get_recent_publication ((tablePathsOf [wvarpath, wpath1, wpath2] j').filter
        (fun f => shas k f)) = none →
      ∃ e2, stackOneTable woc wvars wrv.spInternal "basic" "00001"
        [wvarpath, wpath1, wpath2] ty j' = .error e2) :=
  c5_unresolvable_recency_aborts_job woc wrv [wvarpath, wpath1, wpath2] [] "basic"
    "DP1.00001.001" "00001"
    [("tbl_one", "site-date"), ("tbl_two", "site-all")] wvars
    [("variables_00001", varsTable wvars)] [] [] []
    "tbl_two" (JobErr.recency "tbl_two")
    (by decide) (by decide) (by decide) (by decide) (by decide) (by decide) (by decide)
    (by decide) (by decide) (by decide)

end NeonStack
